import Mathlib

/-!
Verification development for the CEE balance-sheet reclassifier
(`riclassificatore_streamlit.py`).  The Python functions that the claims
concern are embedded shallowly: strings are `List Char`, Python `float`
amounts are `ℚ` (the amounts involved are exact decimals), dictionaries are
association lists in insertion order, and fallible code returns `Option` /
`Except`.  Each embedded definition mirrors one Python function and is named
after it.
-/

namespace Ricl

/-- Python's whitespace predicate (`str.isspace`, also the set matched by the
regex class `\s` for `str` patterns): ASCII whitespace, the ASCII separator
controls 0x1c-0x1f, NEL, NBSP and the Unicode space characters. -/
def isPySpace (c : Char) : Bool :=
  let n := c.toNat
  (9 ≤ n && n ≤ 13) || n = 32 || (28 ≤ n && n ≤ 31) || n = 0x85 || n = 0xa0 ||
  n = 0x1680 || (0x2000 ≤ n && n ≤ 0x200a) || n = 0x2028 || n = 0x2029 ||
  n = 0x202f || n = 0x205f || n = 0x3000

/-- Digit predicate used for the regex class `\d` and `str.isdigit` (modelled
on the ASCII fragment the program's inputs use). -/
def isPyDigit (c : Char) : Bool :=
  48 ≤ c.toNat && c.toNat ≤ 57

/-- Python `str.lower` on the character range the program sees (ASCII plus
the Latin-1 letters that appear in the extraction class `À-ÿ`). -/
def lowerChar (c : Char) : Char :=
  let n := c.toNat
  if (65 ≤ n && n ≤ 90) || (0xc0 ≤ n && n ≤ 0xde && n ≠ 0xd7) then
    Char.ofNat (n + 32)
  else c

def lowerL (l : List Char) : List Char := l.map lowerChar

/-- Python `str.strip()`: drop leading and trailing whitespace. -/
def pyStrip (l : List Char) : List Char :=
  ((l.dropWhile isPySpace).reverse.dropWhile isPySpace).reverse

/-- Python `needle in haystack` on strings: substring test. -/
def containsSub : List Char → List Char → Bool
  | [], needle => needle.isEmpty
  | c :: rest, needle => needle.isPrefixOf (c :: rest) || containsSub rest needle

/-- Python `str.startswith` on a single character. -/
def headIs (l : List Char) (c : Char) : Bool :=
  match l with
  | [] => false
  | x :: _ => x = c

/-- Python `str.endswith` on a single character. -/
def lastIs (l : List Char) (c : Char) : Bool :=
  headIs l.reverse c

/- ====================================================================
   CodiceContoValidator.formatta_codice  (the Code Normalizer)
   ==================================================================== -/

/-- The keep-set of `re.sub(r'[^\d\-\._/\s]', '', codice)`: digits, hyphen,
period, underscore, slash and whitespace survive; everything else
(including comma, semicolon, colon, pipe and backslash) is deleted. -/
def keepCodiceChar (c : Char) : Bool :=
  isPyDigit c || c = '-' || c = '.' || c = '_' || c = '/' || isPySpace c

/-- The loop `for sep in separatori: codice = codice.replace(sep, '_')`.
Each replacement is character-for-character, so the loop is a single map. -/
def replaceSeparatori (c : Char) : Char :=
  if c = '-' || c = '.' || c = '/' || c = '\\' || c = ' ' || c = ',' ||
     c = ';' || c = ':' || c = '|' then '_' else c

/-- One pass of Python `codice.replace('__', '_')` (left-to-right,
non-overlapping). -/
def replaceUU : List Char → List Char
  | [] => []
  | [c] => [c]
  | c1 :: c2 :: rest =>
    if c1 = '_' && c2 = '_' then '_' :: replaceUU rest
    else c1 :: replaceUU (c2 :: rest)

/-- Python `'__' in codice`. -/
def hasUU : List Char → Bool
  | [] => false
  | [_] => false
  | c1 :: c2 :: rest => (c1 = '_' && c2 = '_') || hasUU (c2 :: rest)

/-- The loop `while '__' in codice: codice = codice.replace('__', '_')`,
with explicit fuel; every productive pass shortens the string, so fuel equal
to the length always reaches the loop's exit condition. -/
def collapseLoop : Nat → List Char → List Char
  | 0, l => l
  | n + 1, l => if hasUU l then collapseLoop n (replaceUU l) else l

/-- Python `codice.strip('_')`: drop leading underscores. -/
def dropLeadU (l : List Char) : List Char := l.dropWhile (fun c => c = '_')

/-- Drop trailing underscores (the other half of `strip('_')`). -/
def trimTrailU : List Char → List Char
  | [] => []
  | c :: rest =>
    match trimTrailU rest with
    | [] => if c = '_' then [] else [c]
    | r => c :: r

def stripU (l : List Char) : List Char := trimTrailU (dropLeadU l)

/-- `CodiceContoValidator.formatta_codice`: falsy input yields `""`;
otherwise strip, delete non-kept characters, replace every separator with
`'_'`, collapse `"__"` until none remains, and strip edge underscores. -/
def formattaCodice (l : List Char) : List Char :=
  if l = [] then []
  else
    let s := ((pyStrip l).filter keepCodiceChar).map replaceSeparatori
    stripU (collapseLoop s.length s)

/- ====================================================================
   Exact decimal amounts.  The Python code works with `float`; every
   amount this program manipulates is an exact decimal, so amounts are
   embedded as `man / 10 ^ exp` with integer mantissa.  All operations
   are integer arithmetic (kernel-reducible); `toRat` gives the rational
   value the claims speak about.
   ==================================================================== -/

structure Dec where
  man : ℤ
  exp : ℕ
deriving DecidableEq, Repr

namespace Dec

def toRat (d : Dec) : ℚ := (d.man : ℚ) / 10 ^ d.exp

def zero : Dec := ⟨0, 0⟩

def neg (d : Dec) : Dec := ⟨-d.man, d.exp⟩

def add (a b : Dec) : Dec := ⟨a.man * 10 ^ b.exp + b.man * 10 ^ a.exp, a.exp + b.exp⟩

def sub (a b : Dec) : Dec := ⟨a.man * 10 ^ b.exp - b.man * 10 ^ a.exp, a.exp + b.exp⟩

def abs (d : Dec) : Dec := ⟨|d.man|, d.exp⟩

/-- The comparison `a < b` on values. -/
def blt (a b : Dec) : Bool := a.man * 10 ^ b.exp < b.man * 10 ^ a.exp

/-- The test `a == 0` on values. -/
def isZero (d : Dec) : Bool := d.man = 0

end Dec

/- ====================================================================
   PDFParserRobusto._converti_importo  (the Numeric Parser)
   ==================================================================== -/

/-- Python `float()` on the strings `_converti_importo` can feed it after
cleaning: only digits and at most one `'.'` with at least one digit parse;
everything else raises (modelled as `none`). -/
def pyFloat (l : List Char) : Option Dec :=
  if l.any (fun c => !(isPyDigit c || c = '.')) then none
  else if l.count '.' > 1 then none
  else if !(l.any isPyDigit) then none
  else
    let intPart := l.takeWhile (fun c => c ≠ '.')
    let fracPart := (l.dropWhile (fun c => c ≠ '.')).drop 1
    let digitsVal : List Char → ℤ :=
      fun ds => ds.foldl (fun a c => a * 10 + ((c.toNat : ℤ) - 48)) 0
    some ⟨digitsVal intPart * 10 ^ fracPart.length + digitsVal fracPart,
          fracPart.length⟩

/-- After both `','` and `'.'` are present: `rindex(',') > rindex('.')`
iff the last separator occurring in the string is the comma. -/
def lastSepIsComma (l : List Char) : Bool :=
  match l.reverse.find? (fun c => c = ',' || c = '.') with
  | some c => c = ','
  | none => false

/-- The separator-disambiguation step of `_converti_importo` applied to the
already-cleaned string (digits, commas and periods only). -/
def disambiguaSeparatori (t : List Char) : List Char :=
  if t.contains ',' && t.contains '.' then
    if lastSepIsComma t then
      (t.filter (fun c => c ≠ '.')).map (fun c => if c = ',' then '.' else c)
    else t.filter (fun c => c ≠ ',')
  else if t.contains ',' then
    if t.count ',' = 1 &&
       ((t.dropWhile (fun c => c ≠ ',')).drop 1).length ≤ 2 then
      t.map (fun c => if c = ',' then '.' else c)
    else t.filter (fun c => c ≠ ',')
  else t

/-- `PDFParserRobusto._converti_importo`: total conversion of an amount
string to a number; any unrecoverable input yields `0`.  The negative
marker is a leading `'-'`, a leading `'('` or a trailing `')'` on the
stripped string. -/
def convertiImporto (l : List Char) : Dec :=
  if l = [] then Dec.zero
  else
    let s := pyStrip l
    let negativo := headIs s '-' || headIs s '(' || lastIs s ')'
    let t := s.filter (fun c => isPyDigit c || c = ',' || c = '.')
    let u := disambiguaSeparatori t
    match pyFloat u with
    | some q => if negativo then Dec.neg q else q
    | none => Dec.zero

/- ====================================================================
   A small backtracking regular-expression engine with Python `re`
   semantics (leftmost match, greedy quantifiers, first-alternative
   preference, capturing groups).  The program's patterns use only
   character classes, bounded repetition, `*`, `?`, alternation and
   capturing groups, all of which are modelled; `re.MULTILINE` is
   irrelevant (no anchors occur) and `re.IGNORECASE` is folded into the
   character classes below.
   ==================================================================== -/

inductive Regex where
  | eps : Regex
  | cls (p : Char → Bool) : Regex
  | seq (a b : Regex) : Regex
  | alt (a b : Regex) : Regex
  | star (a : Regex) : Regex
  | rep (a : Regex) (lo hi : Nat) : Regex
  | grp (i : Nat) (a : Regex) : Regex

/-- Captured groups: group index to captured characters. -/
def Caps := List (Nat × List Char)

/-- Backtracking matcher in continuation-passing style.  `fuel` bounds the
recursion depth only; every use below supplies fuel far above the depth a
match on the given input can reach, so the `0` branch is never taken. -/
def mtch {α : Type} : Nat → Regex → List Char → Caps →
    (List Char → Caps → Option α) → Option α
  | 0, _, _, _, _ => none
  | _ + 1, .eps, s, cap, k => k s cap
  | _ + 1, .cls _, [], _, _ => none
  | _ + 1, .cls p, c :: rest, cap, k => if p c then k rest cap else none
  | f + 1, .seq a b, s, cap, k =>
    mtch f a s cap (fun s' cap' => mtch f b s' cap' k)
  | f + 1, .alt a b, s, cap, k =>
    (mtch f a s cap k).orElse (fun _ => mtch f b s cap k)
  | f + 1, .star a, s, cap, k =>
    (mtch f a s cap (fun s' cap' => mtch f (.star a) s' cap' k)).orElse
      (fun _ => k s cap)
  | f + 1, .rep a lo hi, s, cap, k =>
    match lo, hi with
    | 0, 0 => k s cap
    | 0, h + 1 =>
      (mtch f a s cap (fun s' cap' => mtch f (.rep a 0 h) s' cap' k)).orElse
        (fun _ => k s cap)
    | l + 1, h => mtch f a s cap (fun s' cap' => mtch f (.rep a l (h - 1)) s' cap' k)
  | f + 1, .grp i a, s, cap, k =>
    mtch f a s cap (fun s' cap' =>
      k s' ((i, s.take (s.length - s'.length)) :: cap'))

/-- Fuel that is always sufficient for the patterns in this file. -/
def reFuel (s : List Char) : Nat := 200 * s.length + 2000

/-- Python `re.match(pattern, s)` truthiness: a match anchored at the start
(not necessarily spanning the whole string). -/
def reMatch (r : Regex) (s : List Char) : Bool :=
  (mtch (reFuel s) r s [] (fun _ _ => some ())).isSome

/-- One anchored match attempt returning the captures and the rest of the
input after the match. -/
def reTry (r : Regex) (s : List Char) : Option (Caps × List Char) :=
  mtch (reFuel s) r s [] (fun rest cap => some (cap, rest))

/-- Python `re.finditer`: scan left to right, restart after each match
(advancing one character on an empty match, which the patterns here never
produce).  Fuel `s.length + 1` is exact for the scan. -/
def findIter (r : Regex) : Nat → List Char → List Caps
  | 0, _ => []
  | fuel + 1, s =>
    match reTry r s with
    | some (cap, rest) =>
      if rest.length < s.length then cap :: findIter r fuel rest
      else match s with
        | [] => [cap]
        | _ :: tl => cap :: findIter r fuel tl
    | none =>
      match s with
      | [] => []
      | _ :: tl => findIter r fuel tl

def findAll (r : Regex) (s : List Char) : List Caps :=
  findIter r (s.length + 1) s

/-- `match.group(i)` (each group in the program's patterns is captured at
most once per match; the first recorded binding is the final one). -/
def getGroup (cap : Caps) (i : Nat) : List Char :=
  match cap.find? (fun e => e.1 = i) with
  | some e => e.2
  | none => []

/- Regex construction helpers. -/

def rchar (c : Char) : Regex := .cls (fun x => x = c)

def rdigit : Regex := .cls isPyDigit

def rws : Regex := .cls isPySpace

def rseq (l : List Regex) : Regex := l.foldr .seq .eps

def rplus (r : Regex) : Regex := .seq r (.star r)

def ropt (r : Regex) : Regex := .rep r 0 1

/- ====================================================================
   PDFParserRobusto.patterns_conti — the four line-level extraction
   templates, compiled with `re.MULTILINE | re.IGNORECASE`.
   ==================================================================== -/

/-- The class `[-.\s/_]` of the first template. -/
def clsSep1 : Regex := .cls (fun c => c = '-' || c = '.' || c = '/' || c = '_' || isPySpace c)

/-- The description class `[A-Za-zÀ-ÿ\s\.,\-\'&]`. -/
def clsDescr : Regex := .cls (fun c =>
  ('A' ≤ c && c ≤ 'Z') || ('a' ≤ c && c ≤ 'z') ||
  (0xc0 ≤ c.toNat && c.toNat ≤ 0xff) || isPySpace c ||
  c = '.' || c = ',' || c = '-' || c = '\'' || c = '&')

/-- The class `[.,]` inside the amount template. -/
def clsPV : Regex := .cls (fun c => c = '.' || c = ',')

/-- The amount template `[-]?\d{1,3}(?:[.,]\d{3})*(?:[.,]\d{2})?`. -/
def reImporto : Regex :=
  rseq [ropt (rchar '-'), .rep rdigit 1 3,
        .star (rseq [clsPV, rdigit, rdigit, rdigit]),
        ropt (rseq [clsPV, rdigit, rdigit])]

/-- Shared tail of all four templates:
`\s+(descr){3,60}\s+(importo)` with groups 2 and 3. -/
def reCodaConto : Regex :=
  rseq [rplus rws, .grp 2 (.rep clsDescr 3 60), rplus rws, .grp 3 reImporto]

/-- Template 1: `([0-9]{1,2}[-.\s/_]*[0-9]{1,2}[-.\s/_]*[0-9]{1,4}) ...`. -/
def patternConto1 : Regex :=
  .seq (.grp 1 (rseq [.rep rdigit 1 2, .star clsSep1, .rep rdigit 1 2,
                      .star clsSep1, .rep rdigit 1 4]))
       reCodaConto

/-- `[A-Z]` under `re.IGNORECASE`: any ASCII letter. -/
def clsLetterIC : Regex := .cls (fun c => ('A' ≤ c && c ≤ 'Z') || ('a' ≤ c && c ≤ 'z'))

/-- `[IVX]` under `re.IGNORECASE`. -/
def clsIVX : Regex := .cls (fun c =>
  c = 'I' || c = 'V' || c = 'X' || c = 'i' || c = 'v' || c = 'x')

/-- Template 2: `([A-Z]\.?[IVX]{0,3}\.?\d*\)?) ...`. -/
def patternConto2 : Regex :=
  .seq (.grp 1 (rseq [clsLetterIC, ropt (rchar '.'), .rep clsIVX 0 3,
                      ropt (rchar '.'), .star rdigit, ropt (rchar ')')]))
       reCodaConto

/-- Template 3: `(\d{1,4}) ...`. -/
def patternConto3 : Regex :=
  .seq (.grp 1 (.rep rdigit 1 4)) reCodaConto

/-- Template 4: `\((\d+)\) ...`. -/
def patternConto4 : Regex :=
  .seq (rseq [rchar '(', .grp 1 (rplus rdigit), rchar ')']) reCodaConto

def patternsConti : List Regex :=
  [patternConto1, patternConto2, patternConto3, patternConto4]

/- ====================================================================
   PDFParserRobusto._estrai_conti and ._conto_duplicato
   ==================================================================== -/

structure Conto where
  codice : List Char
  descrizione : List Char
  valore : Dec
deriving DecidableEq, Repr

/-- `re.sub(r'\s+', ' ', descrizione)`: collapse every whitespace run to a
single space (`inRun` records whether the previous character was part of a
whitespace run already replaced). -/
def collapseWsAux (inRun : Bool) : List Char → List Char
  | [] => []
  | c :: rest =>
    if isPySpace c then
      if inRun then collapseWsAux true rest
      else ' ' :: collapseWsAux true rest
    else c :: collapseWsAux false rest

def collapseWs (l : List Char) : List Char := collapseWsAux false l

/-- Python `descrizione.replace('...', '')` (left-to-right,
non-overlapping). -/
def removeEllipsis : List Char → List Char
  | '.' :: '.' :: '.' :: rest => removeEllipsis rest
  | c :: rest => c :: removeEllipsis rest
  | [] => []

/-- Python `str.isdigit` (ASCII fragment): nonempty and all digits. -/
def pyIsDigitStr (l : List Char) : Bool :=
  !l.isEmpty && l.all isPyDigit

/-- `PDFParserRobusto._conto_duplicato`: an already-collected record with
the same code, the same description and an amount differing by less than
`0.01` makes the candidate a duplicate. -/
def contoDuplicato (conto : Conto) (conti : List Conto) : Bool :=
  conti.any (fun c =>
    c.codice = conto.codice && c.descrizione = conto.descrizione &&
    Dec.blt (Dec.abs (Dec.sub c.valore conto.valore)) ⟨1, 2⟩)

/-- Processing of a single regex match inside `_estrai_conti`. -/
def processaMatch (cap : Caps) (conti : List Conto) : List Conto :=
  let codice := pyStrip (getGroup cap 1)
  let descr0 := pyStrip (getGroup cap 2)
  let valoreStr := pyStrip (getGroup cap 3)
  let descrizione := pyStrip (removeEllipsis (collapseWs descr0))
  if descrizione.length < 3 || pyIsDigitStr descrizione then conti
  else
    let valore := convertiImporto valoreStr
    if !(Dec.isZero valore) && descrizione.length > 2 then
      let conto : Conto := ⟨formattaCodice codice, descrizione, valore⟩
      if contoDuplicato conto conti then conti else conti ++ [conto]
    else conti

/-- `PDFParserRobusto._estrai_conti`: every template is run over the whole
text (template-major order) and each match is filtered, converted and
deduplicated into the accumulated list. -/
def estraiConti (testo : List Char) (conti : List Conto) : List Conto :=
  patternsConti.foldl
    (fun acc r => (findAll r testo).foldl (fun a cap => processaMatch cap a) acc)
    conti


/- ====================================================================
   The dynamic data tree (`struttura_cee`): Python dicts / lists / strings
   / floats, as a mutual inductive value type in insertion order (the
   dedicated list types keep every recursion structural).
   ==================================================================== -/

mutual

inductive Val where
  | vnum (q : Dec) : Val
  | vstr (s : List Char) : Val
  | vlist (l : VList) : Val
  | vdict (es : VDict) : Val

inductive VList where
  | nil : VList
  | cons (v : Val) (t : VList) : VList

inductive VDict where
  | nil : VDict
  | cons (k : String) (v : Val) (t : VDict) : VDict

end

def VList.ofL : List Val → VList
  | [] => .nil
  | v :: t => .cons v (VList.ofL t)

def VDict.ofL : List (String × Val) → VDict
  | [] => .nil
  | (k, v) :: t => .cons k v (VDict.ofL t)

def VList.snoc : VList → Val → VList
  | .nil, v => .cons v .nil
  | .cons x t, v => .cons x (VList.snoc t v)

def VDict.app : VDict → VDict → VDict
  | .nil, d => d
  | .cons k v t, d => .cons k v (VDict.app t d)

/-- Python `k in d`. -/
def VDict.hasKey : VDict → String → Bool
  | .nil, _ => false
  | .cons k' _ t, k => k' = k || VDict.hasKey t k

/-- Python `d[k]` lookup (first binding; keys are unique in the program). -/
def lookupVal : VDict → String → Option Val
  | .nil, _ => none
  | .cons k' v t, k => if k' = k then some v else lookupVal t k

/-- Overwrite every binding of `k` (keys are unique, so this is Python's
in-place `d[k] = v` for a present key). -/
def overwriteKey : VDict → String → Val → VDict
  | .nil, _, _ => .nil
  | .cons k' v' t, k, v =>
    if k' = k then .cons k' v (overwriteKey t k v)
    else .cons k' v' (overwriteKey t k v)

/-- Python `d[k] = v`: replace the existing binding, else append. -/
def setKey (d : VDict) (k : String) (v : Val) : VDict :=
  if d.hasKey k then overwriteKey d k v else d.app (.cons k v .nil)

/-- Apply `f` to the value bound to `k` (the program only does this when
the key exists). -/
def updKey : VDict → String → (Val → Val) → VDict
  | .nil, _, _ => .nil
  | .cons k' v t, k, f =>
    if k' = k then .cons k' (f v) (updKey t k f)
    else .cons k' v (updKey t k f)

/-- A record as it sits in the tree: a dict with the three fields. -/
def contoVal (c : Conto) : Val :=
  .vdict (.cons "codice" (.vstr c.codice)
    (.cons "descrizione" (.vstr c.descrizione)
      (.cons "valore" (.vnum c.valore) .nil)))

/-- `float(obj['valore'])` — in the program the `'valore'` field is always
numeric, so the conversion is the identity; non-numeric values (which would
make Python raise or convert a string) do not occur. -/
def valNum : Val → Dec
  | .vnum q => q
  | _ => Dec.zero

/- ====================================================================
   ParserDatiDinamico._somma_ricorsiva  (the Aggregator)
   ==================================================================== -/

/-- The keys skipped by the aggregation (`['info', 'totali',
'totali_originali']`). -/
def chiaveEsclusa (k : String) : Bool :=
  k = "info" || k = "totali" || k = "totali_originali"

mutual

/-- `ParserDatiDinamico._somma_ricorsiva`: a dict with a `'valore'` field
contributes that amount; other dicts sum their non-excluded entries; lists
sum their items (records directly, anything else recursively); every other
value contributes `0`. -/
def sommaRicorsiva : Val → Dec
  | .vnum _ => Dec.zero
  | .vstr _ => Dec.zero
  | .vlist l => sommaLista l
  | .vdict es =>
    match lookupVal es "valore" with
    | some v => valNum v
    | none => sommaEntries es

def sommaLista : VList → Dec
  | .nil => Dec.zero
  | .cons item rest =>
    let hd :=
      match item with
      | .vdict es =>
        match lookupVal es "valore" with
        | some v => valNum v
        | none => sommaRicorsiva item
      | _ => sommaRicorsiva item
    Dec.add hd (sommaLista rest)

def sommaEntries : VDict → Dec
  | .nil => Dec.zero
  | .cons k v rest =>
    Dec.add (if chiaveEsclusa k then Dec.zero else sommaRicorsiva v)
      (sommaEntries rest)

end

/- ====================================================================
   The taxonomy (MappingConfigurator.carica_mapping_default) — a config
   dict maps `'pattern'` to a regex, `'voci'` to a keyword list, and any
   other key to a child config.  Patterns are stored compiled.
   ==================================================================== -/

mutual

inductive TaxVal where
  | pat (r : Regex) : TaxVal
  | voci (ws : List (List Char)) : TaxVal
  | node (es : TaxD) : TaxVal

inductive TaxD where
  | nil : TaxD
  | cons (k : String) (v : TaxVal) (t : TaxD) : TaxD

end

def TaxD.ofL : List (String × TaxVal) → TaxD
  | [] => .nil
  | (k, v) :: t => .cons k v (TaxD.ofL t)

/-- `'pattern' in config` / `config['pattern']`. -/
def cfgPat : TaxD → Option Regex
  | .nil => none
  | .cons "pattern" (.pat r) _ => some r
  | .cons _ _ rest => cfgPat rest

/-- `'voci' in config` / `config['voci']`. -/
def cfgVoci : TaxD → Option (List (List Char))
  | .nil => none
  | .cons "voci" (.voci ws) _ => some ws
  | .cons _ _ rest => cfgVoci rest
/-- The class `[-_]` used throughout the default mapping's patterns. -/
def clsDU : Regex := .cls (fun c => c = '-' || c = '_')

/-- `\d+` / `\d*`. -/
def rdigits1 : Regex := rplus rdigit

def rdigits0 : Regex := .star rdigit

/-- Compiled default mapping patterns, named by their raw string. -/
def pat_1_7 : Regex := rseq [rchar '1', clsDU, rchar '7', clsDU, rdigits1]

def pat_1_6_tf : Regex :=
  rseq [rchar '1', clsDU, rchar '6', clsDU,
        .alt (rseq [rchar '1', rchar '0']) (rseq [rchar '1', rchar '1'])]

def pat_1_6_imp : Regex :=
  rseq [rchar '1', clsDU, rchar '6', clsDU,
        .alt (rchar '1') (.alt (rchar '2') (rseq [rchar '1', rchar '3']))]

def pat_1_6_3 : Regex := rseq [rchar '1', clsDU, rchar '6', clsDU, rchar '3']

def pat_1_6_alt : Regex :=
  rseq [rchar '1', clsDU, rchar '6', clsDU,
        .alt (rchar '4') (.alt (rchar '5') (rchar '6'))]

def pat_1_16 : Regex :=
  rseq [rchar '1', clsDU, rchar '1', rchar '6', clsDU, rdigits1]

def pat_1_10 : Regex :=
  rseq [rchar '1', clsDU, rchar '1', rchar '0', clsDU, rdigits1]

def pat_1_34 : Regex :=
  rseq [rchar '1', clsDU, .alt (rchar '3') (rchar '4'), clsDU, rdigits1]

def pat_1_5_1x : Regex :=
  rseq [rchar '1', clsDU, rchar '5', clsDU, rchar '1', rdigits1]

def pat_1_513 : Regex :=
  rseq [rchar '1', clsDU, .alt (rchar '5') (rseq [rchar '1', rchar '3']),
        clsDU, rdigits1]

def pat_1_12disp : Regex :=
  rseq [rchar '1', clsDU, .alt (rchar '1') (rchar '2'), ropt clsDU, rdigits0]

def pat_1_8 : Regex := rseq [rchar '1', clsDU, rchar '8', clsDU, rdigits1]

def pat_2_13 : Regex :=
  rseq [rchar '2', clsDU, rchar '1', rchar '3', clsDU, rdigits1]

def pat_2_812 : Regex :=
  rseq [rchar '2', clsDU, .alt (rchar '8') (rseq [rchar '1', rchar '2']),
        clsDU, rdigits0]

def pat_2_deb : Regex :=
  rseq [rchar '2', clsDU,
        .alt (rchar '2') (.alt (rchar '3') (.alt (rchar '4') (rchar '6'))),
        ropt clsDU, rdigits0]

def pat_2_7 : Regex := rseq [rchar '2', clsDU, rchar '7', clsDU, rdigits1]


def vociOf (ws : List String) : TaxVal := .voci (ws.map String.data)

def cfgImmateriali : TaxD := .ofL
  [("pattern", .pat pat_1_7),
   ("voci", vociOf ["software", "licenze", "brevetti", "avviamento",
                    "costi di impianto"])]

def cfgTerreniFabbricati : TaxD := .ofL
  [("pattern", .pat pat_1_6_tf),
   ("voci", vociOf ["fabbricato", "terreno", "immobile"])]

def cfgImpianti : TaxD := .ofL
  [("pattern", .pat pat_1_6_imp),
   ("voci", vociOf ["impianti", "macchinari", "centrale",
                    "attrezzature industriali"])]

def cfgAttrezzature : TaxD := .ofL
  [("pattern", .pat pat_1_6_3),
   ("voci", vociOf ["attrezzatura", "attrezzature", "utensili"])]

def cfgAltriMateriali : TaxD := .ofL
  [("pattern", .pat pat_1_6_alt),
   ("voci", vociOf ["automezzi", "macchine", "mobili", "arredi", "hardware"])]

def cfgMateriali : TaxD := .ofL
  [("terreni_fabbricati", .node cfgTerreniFabbricati),
   ("impianti", .node cfgImpianti),
   ("attrezzature", .node cfgAttrezzature),
   ("altri", .node cfgAltriMateriali)]

def cfgFinanziarie : TaxD := .ofL
  [("pattern", .pat pat_1_16),
   ("voci", vociOf ["titoli", "partecipazioni", "crediti finanziari",
                    "azioni"])]

def cfgImmobilizzazioni : TaxD := .ofL
  [("immateriali", .node cfgImmateriali),
   ("materiali", .node cfgMateriali),
   ("finanziarie", .node cfgFinanziarie)]

def cfgRimanenze : TaxD := .ofL
  [("pattern", .pat pat_1_10),
   ("voci", vociOf ["magazzino", "rimanenze", "prodotti", "merci",
                    "materie prime"])]

def cfgClienti : TaxD := .ofL
  [("pattern", .pat pat_1_34),
   ("voci", vociOf ["clienti", "effetti", "fatture da emettere",
                    "crediti commerciali"])]

def cfgTributari : TaxD := .ofL
  [("pattern", .pat pat_1_5_1x),
   ("voci", vociOf ["erario", "iva", "crediti tributari", "imposte"])]

def cfgAltriCrediti : TaxD := .ofL
  [("pattern", .pat pat_1_513),
   ("voci", vociOf ["crediti diversi", "anticipi", "depositi", "cauzioni"])]

def cfgCrediti : TaxD := .ofL
  [("clienti", .node cfgClienti),
   ("tributari", .node cfgTributari),
   ("altri", .node cfgAltriCrediti)]

def cfgDisponibilita : TaxD := .ofL
  [("pattern", .pat pat_1_12disp),
   ("voci", vociOf ["cassa", "banca", "banche", "depositi", "c/c", "denaro"])]

def cfgCircolante : TaxD := .ofL
  [("rimanenze", .node cfgRimanenze),
   ("crediti", .node cfgCrediti),
   ("disponibilita", .node cfgDisponibilita)]

def cfgRateiAttivi : TaxD := .ofL
  [("pattern", .pat pat_1_8),
   ("voci", vociOf ["ratei attivi", "risconti attivi"])]

def cfgPatrimonio : TaxD := .ofL
  [("pattern", .pat pat_2_13),
   ("voci", vociOf ["capitale sociale", "riserva", "utili", "perdite",
                    "patrimonio netto"])]

def cfgFondi : TaxD := .ofL
  [("pattern", .pat pat_2_812),
   ("voci", vociOf ["tfr", "fondi", "accantonamenti", "fondo rischi",
                    "trattamento"])]

def cfgDebiti : TaxD := .ofL
  [("pattern", .pat pat_2_deb),
   ("voci", vociOf ["debiti", "fornitori", "banche", "finanziamenti",
                    "mutui", "prestiti"])]

def cfgRateiPassivi : TaxD := .ofL
  [("pattern", .pat pat_2_7),
   ("voci", vociOf ["ratei passivi", "risconti passivi"])]

/-- `self.mapping['attivo'].items()` in declaration order. -/
def mappingAttivo : List (String × TaxD) :=
  [("immobilizzazioni", cfgImmobilizzazioni),
   ("circolante", cfgCircolante),
   ("ratei_risconti", cfgRateiAttivi)]

/-- `self.mapping['passivo'].items()` in declaration order. -/
def mappingPassivo : List (String × TaxD) :=
  [("patrimonio", cfgPatrimonio),
   ("fondi", cfgFondi),
   ("debiti", cfgDebiti),
   ("ratei_risconti", cfgRateiPassivi)]

/- ====================================================================
   ParserDatiDinamico._match_pattern_ricorsivo, _inserisci_conto_ricorsivo,
   _classifica_per_keywords, _classifica_conto  (the Classifier)
   ==================================================================== -/

/-- The non-recursive part of `_match_pattern_ricorsivo`: direct pattern
match (anchored at the start of the code) or keyword substring match
against the description. -/
def matchDiretto (codice descrizione : List Char) (config : TaxD) : Bool :=
  (match cfgPat config with
   | some r => reMatch r codice
   | none => false) ||
  (match cfgVoci config with
   | some ws => ws.any (fun voce => containsSub descrizione voce)
   | none => false)

mutual

/-- The recursive part of `_match_pattern_ricorsivo` (`for key, value in
config.items(): if isinstance(value, dict): ...`). -/
def matchChildren (codice descrizione : List Char) : TaxD → Bool
  | .nil => false
  | .cons _ v rest =>
    matchTaxVal codice descrizione v || matchChildren codice descrizione rest

def matchTaxVal (codice descrizione : List Char) : TaxVal → Bool
  | .node es =>
    matchDiretto codice descrizione es || matchChildren codice descrizione es
  | _ => false

end

/-- `ParserDatiDinamico._match_pattern_ricorsivo`. -/
def matchPatternRicorsivo (codice descrizione : List Char)
    (config : TaxD) : Bool :=
  matchDiretto codice descrizione config ||
  matchChildren codice descrizione config

/-- `current[key].append(conto)` with `if key not in current: current[key]
= []` first: append the record at `key`, creating the list if absent.  (If
the key held a non-list the Python code would raise; that never happens
with the shipped mapping/structure pair.) -/
def appendConto (conto : Conto) (k : String) (d : VDict) : VDict :=
  match lookupVal d k with
  | some (.vlist l) => setKey d k (.vlist (l.snoc (contoVal conto)))
  | none => d.app (.cons k (.vlist (.cons (contoVal conto) .nil)) .nil)
  | some _ => d

/-- The sub-category loop of `_inserisci_conto_ricorsivo`: the first config
entry that is a dict carrying a `'pattern'` matching the record's code (from
the start) receives the record; with no match the loop falls through and the
record is not inserted anywhere. -/
def dictInsertSub (conto : Conto) : TaxD → VDict → VDict
  | .nil, d => d
  | .cons k (.node es) rest, d =>
    match cfgPat es with
    | some r =>
      if reMatch r conto.codice then appendConto conto k d
      else dictInsertSub conto rest d
    | none => dictInsertSub conto rest d
  | .cons _ _ rest, d => dictInsertSub conto rest d

/-- The path walk of `_inserisci_conto_ricorsivo` (the loop `for part in
parts` followed by the `isinstance` dispatch).  Missing keys are created as
empty lists; a final list gets the record appended; a final dict dispatches
on the config's sub-patterns; any other final value leaves the record
uninserted (in Python such a value would simply absorb no append). -/
def walkInsert (conto : Conto) (config : TaxD) : List String → Val → Val
  | [], v =>
    match v with
    | .vlist l => .vlist (l.snoc (contoVal conto))
    | .vdict d => .vdict (dictInsertSub conto config d)
    | other => other
  | p :: rest, v =>
    match v with
    | .vdict d =>
      match lookupVal d p with
      | some inner => .vdict (setKey d p (walkInsert conto config rest inner))
      | none => .vdict (setKey d p (walkInsert conto config rest (.vlist .nil)))
    | other => other

/-- Python `path.split('.')`. -/
def splitDotAux : List Char → List Char → List String
  | [], acc => [String.mk acc.reverse]
  | '.' :: rest, acc => String.mk acc.reverse :: splitDotAux rest []
  | c :: rest, acc => splitDotAux rest (c :: acc)

def splitDot (s : String) : List String := splitDotAux s.data []

/-- `ParserDatiDinamico._inserisci_conto_ricorsivo` on a section dict. -/
def inserisciContoRicorsivo (conto : Conto) (dest : VDict)
    (path : String) (config : TaxD) : VDict :=
  match walkInsert conto config (splitDot path) (.vdict dest) with
  | .vdict d => d
  | _ => dest

/-- The hard-coded fallback keyword table of `_classifica_per_keywords`,
flattened in iteration order as (section, category, keyword-list). -/
def keywordsMap : List (String × String × List (List Char)) :=
  [("attivo", "immobilizzazioni",
    ["immobilizz", "software", "brevett", "impianto", "macchin",
     "fabbricat", "terren"].map String.data),
   ("attivo", "circolante",
    ["client", "credit", "cassa", "banca", "rimanenz", "magazz"].map
      String.data),
   ("attivo", "ratei_risconti",
    ["ratei attiv", "riscont attiv"].map String.data),
   ("passivo", "patrimonio_netto",
    ["capitale", "riserv", "utili", "perdite"].map String.data),
   ("passivo", "debiti",
    ["fornitor", "debit", "mutui", "prestit", "finanziament"].map
      String.data),
   ("passivo", "fondi",
    ["tfr", "fondo", "accantonament"].map String.data),
   ("passivo", "ratei_risconti",
    ["ratei passiv", "riscont passiv"].map String.data)]

/-- First (section, category) whose keyword list has a substring hit. -/
def kwFind (descrizione : List Char) :
    List (String × String × List (List Char)) → Option (String × String)
  | [] => none
  | (sez, cat, ks) :: rest =>
    if ks.any (fun k => containsSub descrizione k) then some (sez, cat)
    else kwFind descrizione rest

/-- The destination of the fallback insertion (`_classifica_per_keywords`'s
`if/elif` ladder). -/
def kwDest (sez cat : String) : List String :=
  if sez = "attivo" then
    if cat = "immobilizzazioni" then ["attivo", "immobilizzazioni", "immateriali"]
    else if cat = "circolante" then ["attivo", "circolante", "disponibilita"]
    else ["attivo", cat]
  else ["passivo", cat]

/-- Append a record at an existing nested path (`struttura[...]...append`);
the keys exist in the shipped structure, so no creation is modelled. -/
def appendAtPath (conto : Conto) : List String → Val → Val
  | [], v =>
    match v with
    | .vlist l => .vlist (l.snoc (contoVal conto))
    | other => other
  | p :: rest, v =>
    match v with
    | .vdict d => .vdict (updKey d p (appendAtPath conto rest))
    | other => other

/-- `ParserDatiDinamico._classifica_per_keywords`. -/
def classificaPerKeywords (conto : Conto) (strut : VDict) : VDict × Bool :=
  let descrizione := lowerL conto.descrizione
  match kwFind descrizione keywordsMap with
  | some (sez, cat) =>
    match appendAtPath conto (kwDest sez cat) (.vdict strut) with
    | .vdict d => (d, true)
    | _ => (strut, true)
  | none => (strut, false)

/-- First category of a mapping section matched by
`_match_pattern_ricorsivo` (the `for categoria, config in ...` loop). -/
def findCategoria (codice descrizione : List Char) :
    List (String × TaxD) → Option (String × TaxD)
  | [] => none
  | (cat, cfg) :: rest =>
    if matchPatternRicorsivo codice descrizione cfg then some (cat, cfg)
    else findCategoria codice descrizione rest

/-- `ParserDatiDinamico._classifica_conto`: try the `attivo` section, then
`passivo`, then the keyword fallback; the returned flag is the local
`classificato` (true iff the record was matched by the mapping or by a
fallback keyword). -/
def classificaConto (conto : Conto) (strut : VDict) : VDict × Bool :=
  let codice := conto.codice
  let descrizione := lowerL conto.descrizione
  match findCategoria codice descrizione mappingAttivo with
  | some (cat, cfg) =>
    (updKey strut "attivo"
      (fun v =>
        match v with
        | .vdict d => .vdict (inserisciContoRicorsivo conto d cat cfg)
        | other => other), true)
  | none =>
    match findCategoria codice descrizione mappingPassivo with
    | some (cat, cfg) =>
      (updKey strut "passivo"
        (fun v =>
          match v with
          | .vdict d => .vdict (inserisciContoRicorsivo conto d cat cfg)
          | other => other), true)
    | none => classificaPerKeywords conto strut

/- ====================================================================
   ParserDatiDinamico._organizza_dati_cee and ._calcola_totali
   ==================================================================== -/

/-- The fixed skeleton `struttura_cee` (without the `'info'` entry, which
is filled from the raw data). -/
def strutturaAttivoBase : Val :=
  .vdict (.ofL
    [("immobilizzazioni", .vdict (.ofL
       [("immateriali", .vlist .nil),
        ("materiali", .vdict (.ofL
          [("terreni_fabbricati", .vlist .nil),
           ("impianti", .vlist .nil),
           ("attrezzature", .vlist .nil),
           ("altri", .vlist .nil)])),
        ("finanziarie", .vlist .nil)])),
     ("circolante", .vdict (.ofL
       [("rimanenze", .vlist .nil),
        ("crediti", .vdict (.ofL
          [("clienti", .vlist .nil),
           ("tributari", .vlist .nil),
           ("altri", .vlist .nil)])),
        ("disponibilita", .vlist .nil)])),
     ("ratei_risconti", .vlist .nil)])

def strutturaPassivoBase : Val :=
  .vdict (.ofL
    [("patrimonio_netto", .vlist .nil),
     ("fondi", .vlist .nil),
     ("tfr", .vlist .nil),
     ("debiti", .vlist .nil),
     ("ratei_risconti", .vlist .nil)])

def strutturaBase (info : VDict) : VDict := .ofL
  [("info", .vdict info),
   ("attivo", strutturaAttivoBase),
   ("passivo", strutturaPassivoBase)]

/-- Python `d.get(k, default)` for the tree's sections. -/
def lookupValD (es : VDict) (k : String) (dflt : Val) : Val :=
  match lookupVal es k with
  | some v => v
  | none => dflt

/-- `ParserDatiDinamico._calcola_totali`: sum the `attivo` and `passivo`
subtrees, store the two totals and `quadratura = attivo - passivo` under
`'totali'`, and copy `'totali_originali'` to `'totali' → 'originali'` when
present. -/
def calcolaTotali (s : VDict) : VDict :=
  let totaleAttivo := sommaRicorsiva (lookupValD s "attivo" (.vdict .nil))
  let totalePassivo := sommaRicorsiva (lookupValD s "passivo" (.vdict .nil))
  let base : VDict := .ofL
    [("attivo", .vnum totaleAttivo), ("passivo", .vnum totalePassivo),
     ("quadratura", .vnum (Dec.sub totaleAttivo totalePassivo))]
  let tot :=
    match lookupVal s "totali_originali" with
    | some v => base.app (.cons "originali" v .nil)
    | none => base
  setKey s "totali" (.vdict tot)

/-- The `'totali'` dictionary a raw parse carries. -/
def totaliToVal (ts : List (String × Dec)) : Val :=
  .vdict (.ofL (ts.map (fun t => (t.1, .vnum t.2))))

/-- The raw parse result handed to `_organizza_dati_cee`
(`{'info': ..., 'conti': ..., 'totali': ...}`). -/
structure DatiRaw where
  info : VDict
  conti : List Conto
  totali : List (String × Dec)

/-- `ParserDatiDinamico._organizza_dati_cee`: build the skeleton, classify
every record, carry non-empty raw totals as `'totali_originali'`, and
compute the totals. -/
def organizzaDatiCee (dati : DatiRaw) : VDict :=
  let s1 := strutturaBase dati.info
  let s2 := dati.conti.foldl (fun s c => (classificaConto c s).1) s1
  let s3 :=
    if dati.totali.isEmpty then s2
    else s2.app (.cons "totali_originali" (totaliToVal dati.totali) .nil)
  calcolaTotali s3

/- ====================================================================
   PDFParserRobusto._valida_e_pulisci_risultati and .parse
   ==================================================================== -/

/-- The result dictionary of the PDF parser. -/
structure PdfRisultati where
  info : VDict
  conti : List Conto
  totali : List (String × Dec)
  testoEstratto : List Char

def pdfRisultatiVuoti : PdfRisultati := ⟨.nil, [], [], []⟩

/-- The per-record filter of `_valida_e_pulisci_risultati`: drop records
whose lower-cased description consists only of digits, whitespace, hyphens,
slashes and periods (the anchored full match of the class in the source),
is shorter than 3 characters, or contains a pagination/continuation token. -/
def contoValido (c : Conto) : Bool :=
  let desc := lowerL c.descrizione
  let soloNumeri :=
    !desc.isEmpty &&
    desc.all (fun ch => isPyDigit ch || isPySpace ch || ch = '-' || ch = '/' || ch = '.')
  let skip := ["pagina", "pag.", "totale pagina", "riporto", "segue"].map
    String.data
  !soloNumeri && !(desc.length < 3) && !(skip.any (fun p => containsSub desc p))

/-- Sum of the strictly positive record amounts
(`sum(c['valore'] for c in conti if c['valore'] > 0)`). -/
def sommaPositivi (conti : List Conto) : Dec :=
  conti.foldl
    (fun acc c => if Dec.blt Dec.zero c.valore then Dec.add acc c.valore else acc)
    Dec.zero

/-- `PDFParserRobusto._valida_e_pulisci_risultati`: filter the records;
then, if no totals were found and at least one record survived, add the
synthetic total `'calcolato'` equal to the sum of the positive amounts,
provided that sum is positive. -/
def validaEPulisciRisultati (r : PdfRisultati) : PdfRisultati :=
  let contiValidi := r.conti.filter contoValido
  let totali :=
    if r.totali.isEmpty && !contiValidi.isEmpty then
      let totale := sommaPositivi contiValidi
      if Dec.blt Dec.zero totale then [("calcolato", totale)] else r.totali
    else r.totali
  { r with conti := contiValidi, totali := totali }

/-- The two extraction libraries, modelled as oracles: an availability
flag and the outcome of invoking the strategy (`none` = the library call
raises). -/
structure PdfLibs where
  pdfminerAvailable : Bool
  pypdf2Available : Bool
  pdfminerOutcome : Option PdfRisultati
  pypdf2Outcome : Option PdfRisultati

/-- A strategy invocation recorded with the stream position it was given. -/
inductive PdfCall where
  | pdfminer (pos : Nat) : PdfCall
  | pypdf2 (pos : Nat) : PdfCall
deriving DecidableEq, Repr

/-- `PDFParserRobusto.parse`: try pdfminer first when available; on its
failure seek the stream back to `0` and retry with PyPDF2 when available
(whose own failure propagates, `Except.error`); with only PyPDF2, call it
directly (its failure propagates); with neither library, return the empty
result immediately (without the validation pass).  Successful results go
through `_valida_e_pulisci_risultati`. -/
def pdfParse (libs : PdfLibs) (pos : Nat) :
    Except Unit PdfRisultati × List PdfCall :=
  if libs.pdfminerAvailable then
    match libs.pdfminerOutcome with
    | some r => (.ok (validaEPulisciRisultati r), [.pdfminer pos])
    | none =>
      if libs.pypdf2Available then
        match libs.pypdf2Outcome with
        | some r =>
          (.ok (validaEPulisciRisultati r), [.pdfminer pos, .pypdf2 0])
        | none => (.error (), [.pdfminer pos, .pypdf2 0])
      else (.ok (validaEPulisciRisultati pdfRisultatiVuoti), [.pdfminer pos])
  else if libs.pypdf2Available then
    match libs.pypdf2Outcome with
    | some r => (.ok (validaEPulisciRisultati r), [.pypdf2 pos])
    | none => (.error (), [.pypdf2 pos])
  else (.ok pdfRisultatiVuoti, [])

/- ====================================================================
   Specification-side definitions, written from the claims' wording, to be
   compared with the embedded code above.
   ==================================================================== -/

/-- Collapse every run of consecutive underscores to a single underscore
(the specification's ``collapses consecutive canonical separators into
one''); `inRun` is true while inside a run already emitted. -/
def collapseRunsU (inRun : Bool) : List Char → List Char
  | [] => []
  | c :: rest =>
    if c = '_' then
      if inRun then collapseRunsU true rest
      else '_' :: collapseRunsU true rest
    else c :: collapseRunsU false rest

def collapseRuns (l : List Char) : List Char := collapseRunsU false l

/-- The claim's separator set: hyphen, period, slash, backslash, space,
comma, semicolon, colon, pipe, underscore. -/
def sepClaimed (c : Char) : Bool :=
  c = '-' || c = '.' || c = '/' || c = '\\' || c = ' ' || c = ',' ||
  c = ';' || c = ':' || c = '|' || c = '_'

/-- The normalizer exactly as claim C8 words it: strip all characters
except digits and the separator glyphs, replace every separator with the
canonical `'_'`, collapse runs, trim edges. -/
def normSpecClaimed (l : List Char) : List Char :=
  if l = [] then []
  else
    stripU (collapseRuns
      ((l.filter (fun c => isPyDigit c || sepClaimed c)).map
        (fun c => if sepClaimed c then '_' else c)))

/-- The normalizer as the code actually behaves (the amended claim): after
trimming surrounding whitespace, keep digits, hyphen, period, underscore,
slash and whitespace (deleting comma, semicolon, colon, pipe, backslash);
replace hyphen, period, slash and space (only) by `'_'`; collapse runs of
underscores; trim edge underscores. -/
def normSpecAmended (l : List Char) : List Char :=
  if l = [] then []
  else
    stripU (collapseRuns
      (((pyStrip l).filter keepCodiceChar).map replaceSeparatori))

/-- The negative marker the code actually detects (amended claim C7):
on the stripped string, a leading `'-'`, a leading `'('` or a trailing
`')'`. -/
def marcatoreNegativo (l : List Char) : Bool :=
  headIs (pyStrip l) '-' || headIs (pyStrip l) '(' || lastIs (pyStrip l) ')'

/-- The unsigned magnitude `_converti_importo` computes before applying
the sign (specification-side restatement of steps 2-4). -/
def grandezzaImporto (l : List Char) : Dec :=
  match pyFloat (disambiguaSeparatori
      ((pyStrip l).filter (fun c => isPyDigit c || c = ',' || c = '.'))) with
  | some q => q
  | none => Dec.zero

/-- Specification-side reading of the insertion sub-lookup: the first
config entry that is a dict carrying a `'pattern'` that matches the code
from the start. -/
def primoFiglioConPattern (codice : List Char) : TaxD → Option String
  | .nil => none
  | .cons k (.node es) rest =>
    (match cfgPat es with
     | some r =>
       if reMatch r codice then some k
       else primoFiglioConPattern codice rest
     | none => primoFiglioConPattern codice rest)
  | .cons _ _ rest => primoFiglioConPattern codice rest

/-- The manually constructed tree of claim C1: records of 100 and 200
under assets, one record of 150 under liabilities. -/
def alberoEsempio : VDict := .ofL
  [("attivo", .vdict (.ofL [("disponibilita",
      .vlist (.ofL [contoVal ⟨"1_1_1".data, "cassa".data, ⟨100, 0⟩⟩,
                    contoVal ⟨"1_1_2".data, "banca".data, ⟨200, 0⟩⟩]))])),
   ("passivo", .vdict (.ofL [("debiti",
      .vlist (.ofL [contoVal ⟨"2_2_1".data, "fornitori".data, ⟨150, 0⟩⟩]))]))]

/-- The keys of a tree dictionary (used to state that classification never
adds or removes top-level keys). -/
def VDict.keys : VDict → List String
  | .nil => []
  | .cons k _ t => k :: VDict.keys t

/-- Navigate a tree along a key path (for stating where a record lands). -/
def lookupPath : List String → Val → Option Val
  | [], v => some v
  | p :: rest, .vdict d =>
    (match lookupVal d p with
     | some v => lookupPath rest v
     | none => none)
  | _ :: _, _ => none

/- ====================================================================
   Lemmas about the exact-decimal amounts.
   ==================================================================== -/

theorem Dec.toRat_zero : Dec.zero.toRat = 0 := by
  simp [Dec.toRat, Dec.zero]

theorem Dec.pow10_pos (e : ℕ) : (0 : ℚ) < 10 ^ e := by positivity

theorem Dec.toRat_neg (d : Dec) : (Dec.neg d).toRat = -d.toRat := by
  simp [Dec.toRat, Dec.neg, neg_div]

theorem Dec.toRat_add (a b : Dec) :
    (Dec.add a b).toRat = a.toRat + b.toRat := by
  have ha : ((10 : ℚ) ^ a.exp) ≠ 0 := ne_of_gt (Dec.pow10_pos a.exp)
  have hb : ((10 : ℚ) ^ b.exp) ≠ 0 := ne_of_gt (Dec.pow10_pos b.exp)
  simp only [Dec.toRat, Dec.add, pow_add]
  push_cast
  rw [div_add_div _ _ ha hb, mul_comm ((10 : ℚ) ^ a.exp)]
  ring_nf

theorem Dec.toRat_sub (a b : Dec) :
    (Dec.sub a b).toRat = a.toRat - b.toRat := by
  have ha : ((10 : ℚ) ^ a.exp) ≠ 0 := ne_of_gt (Dec.pow10_pos a.exp)
  have hb : ((10 : ℚ) ^ b.exp) ≠ 0 := ne_of_gt (Dec.pow10_pos b.exp)
  simp only [Dec.toRat, Dec.sub, pow_add]
  push_cast
  rw [div_sub_div _ _ ha hb, mul_comm ((10 : ℚ) ^ a.exp)]
  ring_nf

theorem Dec.toRat_abs (d : Dec) : (Dec.abs d).toRat = |d.toRat| := by
  simp only [Dec.toRat, Dec.abs, abs_div]
  congr 1
  · push_cast; simp
  · rw [abs_of_pos (Dec.pow10_pos d.exp)]

theorem Dec.blt_iff (a b : Dec) : Dec.blt a b = true ↔ a.toRat < b.toRat := by
  simp only [Dec.blt, Dec.toRat, decide_eq_true_eq]
  rw [div_lt_div_iff₀ (Dec.pow10_pos a.exp) (Dec.pow10_pos b.exp)]
  constructor
  · intro h
    exact_mod_cast h
  · intro h
    exact_mod_cast h

theorem Dec.isZero_iff (d : Dec) : Dec.isZero d = true ↔ d.toRat = 0 := by
  simp only [Dec.isZero, Dec.toRat, decide_eq_true_eq]
  rw [div_eq_zero_iff]
  constructor
  · intro h; left; exact_mod_cast h
  · rintro (h | h)
    · exact_mod_cast h
    · exact absurd h (ne_of_gt (Dec.pow10_pos d.exp))

/- ====================================================================
   Dictionary lemmas.
   ==================================================================== -/

theorem VDict.app_nil : ∀ d : VDict, d.app .nil = d
  | .nil => rfl
  | .cons k v t => by simp [VDict.app, VDict.app_nil t]

theorem lookupVal_app : ∀ (d e : VDict) (k : String),
    lookupVal (d.app e) k =
      match lookupVal d k with
      | some v => some v
      | none => lookupVal e k
  | .nil, _, _ => rfl
  | .cons k' v t, e, k => by
    by_cases h : k' = k <;> simp [VDict.app, lookupVal, h, lookupVal_app t e k]

theorem lookupVal_of_hasKey_false : ∀ (d : VDict) (k : String),
    d.hasKey k = false → lookupVal d k = none
  | .nil, _, _ => rfl
  | .cons k0 v0 t, k, h => by
    simp only [VDict.hasKey, Bool.or_eq_false_iff, decide_eq_false_iff_not] at h
    simp [lookupVal, h.1, lookupVal_of_hasKey_false t k (by simpa using h.2)]

theorem lookupVal_overwriteKey_self : ∀ (d : VDict) (k : String) (v : Val),
    d.hasKey k = true → lookupVal (overwriteKey d k v) k = some v
  | .nil, k, v, h => by simp [VDict.hasKey] at h
  | .cons k' v' t, k, v, h => by
    by_cases hk : k' = k
    · simp [overwriteKey, lookupVal, hk]
    · simp only [VDict.hasKey, Bool.or_eq_true, decide_eq_true_eq] at h
      rcases h with h | h
      · exact absurd h hk
      · simp [overwriteKey, lookupVal, hk,
          lookupVal_overwriteKey_self t k v h]

theorem lookupVal_overwriteKey_ne : ∀ (d : VDict) (k k' : String) (v : Val),
    k' ≠ k → lookupVal (overwriteKey d k v) k' = lookupVal d k'
  | .nil, _, _, _, _ => rfl
  | .cons k0 v0 t, k, k', v, h => by
    simp only [overwriteKey]
    by_cases hk : k0 = k
    · subst hk
      rw [if_pos rfl]
      simp [lookupVal, Ne.symm h, lookupVal_overwriteKey_ne t _ k' v h]
    · rw [if_neg hk]
      by_cases hk' : k0 = k'
      · subst hk'
        simp [lookupVal, lookupVal_overwriteKey_ne t k k0 v h]
      · simp [lookupVal, hk', lookupVal_overwriteKey_ne t k k' v h]

theorem lookupVal_setKey_self (d : VDict) (k : String) (v : Val) :
    lookupVal (setKey d k v) k = some v := by
  unfold setKey
  by_cases h : d.hasKey k = true
  · simp [h, lookupVal_overwriteKey_self d k v h]
  · have h' : d.hasKey k = false := by simpa using h
    simp [h', lookupVal_app, lookupVal_of_hasKey_false d k h', lookupVal]

theorem lookupVal_setKey_ne (d : VDict) (k k' : String) (v : Val)
    (h : k' ≠ k) : lookupVal (setKey d k v) k' = lookupVal d k' := by
  unfold setKey
  by_cases hk : d.hasKey k = true
  · simp [hk, lookupVal_overwriteKey_ne d k k' v h]
  · have h' : d.hasKey k = false := by simpa using hk
    rw [if_neg (by simp [h']), lookupVal_app]
    cases hdk : lookupVal d k' with
    | some v' => simp
    | none => simp [lookupVal, Ne.symm h]

/- ====================================================================
   Claim C1 — aggregator totals.
   ==================================================================== -/

/-- C1: for every classified tree, `_calcola_totali` stores under
`'totali'` the recursive sums of the `'attivo'` and `'passivo'` subtrees
(which themselves exclude the `'info'`/`'totali'`/`'totali_originali'`
keys) and a `'quadratura'` equal to assets minus liabilities as rational
values; on the manually constructed tree with records 100 and 200 under
assets and 150 under liabilities this yields assets = 300, liabilities =
150, balance gap = 150. -/
theorem c1_quadratura_attivo_meno_passivo :
    (∀ s : VDict, ∃ t : VDict,
      lookupVal (calcolaTotali s) "totali" = some (.vdict t) ∧
      lookupVal t "attivo" =
        some (.vnum (sommaRicorsiva (lookupValD s "attivo" (.vdict .nil)))) ∧
      lookupVal t "passivo" =
        some (.vnum (sommaRicorsiva (lookupValD s "passivo" (.vdict .nil)))) ∧
      lookupVal t "quadratura" =
        some (.vnum (Dec.sub
          (sommaRicorsiva (lookupValD s "attivo" (.vdict .nil)))
          (sommaRicorsiva (lookupValD s "passivo" (.vdict .nil))))) ∧
      (Dec.sub (sommaRicorsiva (lookupValD s "attivo" (.vdict .nil)))
          (sommaRicorsiva (lookupValD s "passivo" (.vdict .nil)))).toRat =
        (sommaRicorsiva (lookupValD s "attivo" (.vdict .nil))).toRat -
        (sommaRicorsiva (lookupValD s "passivo" (.vdict .nil))).toRat) ∧
    (lookupVal (calcolaTotali alberoEsempio) "totali" =
      some (.vdict (.ofL
        [("attivo", .vnum ⟨300, 0⟩), ("passivo", .vnum ⟨150, 0⟩),
         ("quadratura", .vnum ⟨150, 0⟩)])) ∧
     (⟨300, 0⟩ : Dec).toRat = 300 ∧ (⟨150, 0⟩ : Dec).toRat = 150) := by
  constructor
  · intro s
    unfold calcolaTotali
    cases horig : lookupVal s "totali_originali" with
    | none =>
      refine ⟨_, lookupVal_setKey_self _ _ _, ?_, ?_, ?_, Dec.toRat_sub _ _⟩
        <;> simp [horig] <;> rfl
    | some v =>
      refine ⟨_, lookupVal_setKey_self _ _ _, ?_, ?_, ?_, Dec.toRat_sub _ _⟩
        <;> simp [horig] <;> rfl
  · refine ⟨by rfl, by norm_num [Dec.toRat], by norm_num [Dec.toRat]⟩

/- ====================================================================
   Claim C2 — numeric parser reference table and totality.
   ==================================================================== -/

/-- C2: the numeric parser is total by construction (it is a function);
whenever the cleaned string does not parse as a Python float it returns
`0.0`, and the reference value table holds:
`1.234,56 ↦ 1234.56`, `1,234.56 ↦ 1234.56`, `(500,00) ↦ -500`,
`"" ↦ 0`, `"abc" ↦ 0`. -/
theorem c2_tabella_parser_importi :
    (∀ l : List Char,
      pyFloat (disambiguaSeparatori
        ((pyStrip l).filter (fun c => isPyDigit c || c = ',' || c = '.'))) =
          none →
      convertiImporto l = Dec.zero) ∧
    (convertiImporto "1.234,56".data).toRat = 1234.56 ∧
    (convertiImporto "1,234.56".data).toRat = 1234.56 ∧
    (convertiImporto "(500,00)".data).toRat = -500 ∧
    (convertiImporto "".data).toRat = 0 ∧
    (convertiImporto "abc".data).toRat = 0 := by
  refine ⟨?_, ?_, ?_, ?_, ?_, ?_⟩
  · intro l h
    by_cases hl : l = []
    · simp [convertiImporto, hl]
    · simp [convertiImporto, hl, h]
  · have h : convertiImporto "1.234,56".data = ⟨123456, 2⟩ := by decide
    rw [h]; norm_num [Dec.toRat]
  · have h : convertiImporto "1,234.56".data = ⟨123456, 2⟩ := by decide
    rw [h]; norm_num [Dec.toRat]
  · have h : convertiImporto "(500,00)".data = ⟨-50000, 2⟩ := by decide
    rw [h]; norm_num [Dec.toRat]
  · have h : convertiImporto "".data = ⟨0, 0⟩ := by decide
    rw [h]; norm_num [Dec.toRat]
  · have h : convertiImporto "abc".data = ⟨0, 0⟩ := by decide
    rw [h]; norm_num [Dec.toRat]

/-- Witness for C2's implication at the concrete unrecoverable input
`"abc"`. -/
theorem c2_tabella_parser_importi_witness :
    convertiImporto "abc".data = Dec.zero :=
  c2_tabella_parser_importi.1 "abc".data (by decide)

/- ====================================================================
   Claim C6 — unmatched record is dropped, totals unchanged.
   ==================================================================== -/

/-- C6: the record with code `9-99-1` (normalized `9_99_1`) and
description `"voce ignota"` matches no mapping pattern, no mapping
keyword and no fallback keyword: classification (a total function, so it
cannot raise) leaves the tree unchanged — the record is absent — reports
the record as unclassified (`classificato = false`), and consequently the
recursive totals are unchanged. -/
theorem c6_voce_ignota_non_classificata :
    formattaCodice "9-99-1".data = "9_99_1".data ∧
    classificaConto ⟨"9_99_1".data, "voce ignota".data, ⟨100, 0⟩⟩
        (strutturaBase .nil) = (strutturaBase .nil, false) ∧
    sommaRicorsiva (.vdict
      (classificaConto ⟨"9_99_1".data, "voce ignota".data, ⟨100, 0⟩⟩
        (strutturaBase .nil)).1) =
      sommaRicorsiva (.vdict (strutturaBase .nil)) := by
  refine ⟨by decide, by rfl, by rfl⟩

/- ====================================================================
   Claim C7 — the negative marker.
   ==================================================================== -/

/-- Counterexample to C7: the claim demands that a trailing `'-'` marks a
negative and that only a fully parenthesized value does; the code instead
parses `"500-"` to `+500` (trailing minus is not detected) and `"(500"`
to `-500` (a leading parenthesis alone suffices). -/
theorem c7_counterexample :
    (convertiImporto "500-".data).toRat = 500 ∧
    (convertiImporto "(500".data).toRat = -500 := by
  constructor
  · have h : convertiImporto "500-".data = ⟨500, 0⟩ := by decide
    rw [h]; norm_num [Dec.toRat]
  · have h : convertiImporto "(500".data = ⟨-500, 0⟩ := by decide
    rw [h]; norm_num [Dec.toRat]

/-- C7 amended: the parser detects a negative marker when and only when
the stripped string starts with `'-'`, starts with `'('`, or ends with
`')'` (a trailing `'-'` is not detected), and applies the negative sign to
the converted magnitude. -/
theorem c7_amended_marcatore_negativo :
    ∀ l : List Char,
      convertiImporto l =
        if marcatoreNegativo l then Dec.neg (grandezzaImporto l)
        else grandezzaImporto l := by
  intro l
  by_cases hl : l = []
  · subst hl; decide
  · simp only [convertiImporto, marcatoreNegativo, grandezzaImporto,
      if_neg hl]
    cases hpf : pyFloat (disambiguaSeparatori
        ((pyStrip l).filter (fun c => isPyDigit c || c = ',' || c = '.'))) with
    | none =>
      by_cases hneg : (headIs (pyStrip l) '-' || headIs (pyStrip l) '(' ||
          lastIs (pyStrip l) ')') = true <;>
        simp [hpf, hneg, Dec.neg, Dec.zero]
    | some q =>
      by_cases hneg : (headIs (pyStrip l) '-' || headIs (pyStrip l) '(' ||
          lastIs (pyStrip l) ')') = true <;>
        simp [hpf, hneg]

/- ====================================================================
   Claim C4 — document text extractor fallback.
   ==================================================================== -/

/-- Counterexample to C4: with both libraries available and both
strategies failing, `parse` propagates the exception instead of returning
a result with empty text. -/
theorem c4_counterexample :
    (pdfParse ⟨true, true, none, none⟩ 5).1 = .error () := by rfl

/-- C4 amended: the preferred (layout-aware) strategy is always invoked
first when available; on its failure the stream is reset to position `0`
and the fallback is invoked there; a fallback success is returned; with
neither library available the parser returns the empty result (empty
text) without raising; with the preferred library alone failing it also
returns an empty validated result; but when the fallback itself fails
(after a preferred failure) the exception propagates. -/
theorem c4_amended_fallback :
    (∀ (libs : PdfLibs) (pos : Nat), libs.pdfminerAvailable = true →
      (pdfParse libs pos).2.head? = some (.pdfminer pos)) ∧
    (∀ (libs : PdfLibs) (pos : Nat), libs.pdfminerAvailable = true →
      libs.pdfminerOutcome = none → libs.pypdf2Available = true →
      (pdfParse libs pos).2 = [.pdfminer pos, .pypdf2 0]) ∧
    (∀ (libs : PdfLibs) (pos : Nat) (r : PdfRisultati),
      libs.pdfminerAvailable = true → libs.pdfminerOutcome = none →
      libs.pypdf2Available = true → libs.pypdf2Outcome = some r →
      (pdfParse libs pos).1 = .ok (validaEPulisciRisultati r)) ∧
    (∀ (libs : PdfLibs) (pos : Nat), libs.pdfminerAvailable = false →
      libs.pypdf2Available = false →
      (pdfParse libs pos).1 = .ok pdfRisultatiVuoti ∧
      pdfRisultatiVuoti.testoEstratto = []) ∧
    (∀ (libs : PdfLibs) (pos : Nat), libs.pdfminerAvailable = true →
      libs.pdfminerOutcome = none → libs.pypdf2Available = false →
      (pdfParse libs pos).1 =
        .ok (validaEPulisciRisultati pdfRisultatiVuoti)) ∧
    (∀ (libs : PdfLibs) (pos : Nat), libs.pdfminerAvailable = true →
      libs.pdfminerOutcome = none → libs.pypdf2Available = true →
      libs.pypdf2Outcome = none → (pdfParse libs pos).1 = .error ()) := by
  refine ⟨?_, ?_, ?_, ?_, ?_, ?_⟩
  · rintro ⟨a, b, o1, o2⟩ pos h
    subst h
    cases o1 <;> cases o2 <;> by_cases hb : b = true <;> simp_all [pdfParse]
  · rintro ⟨a, b, o1, o2⟩ pos h1 h2 h3
    simp_all [pdfParse]
    cases o2 <;> simp
  · rintro ⟨a, b, o1, o2⟩ pos r h1 h2 h3 h4
    simp_all [pdfParse]
  · rintro ⟨a, b, o1, o2⟩ pos h1 h2
    exact ⟨by simp_all [pdfParse], rfl⟩
  · rintro ⟨a, b, o1, o2⟩ pos h1 h2 h3
    simp_all [pdfParse]
  · rintro ⟨a, b, o1, o2⟩ pos h1 h2 h3 h4
    simp_all [pdfParse]

/-- Witness for C4 amended at a concrete library configuration. -/
theorem c4_amended_fallback_witness :
    (pdfParse ⟨true, true, none, some pdfRisultatiVuoti⟩ 7).2.head? =
      some (.pdfminer 7) :=
  c4_amended_fallback.1 ⟨true, true, none, some pdfRisultatiVuoti⟩ 7 rfl

/- ====================================================================
   Claim C5 — insertion at an internal node.
   ==================================================================== -/

/-- The insertion sub-lookup equals its first-match specification: the
record goes to the first config entry that is a dict carrying a
`'pattern'` matching the code from the start, and with no such match the
bucket is left unchanged (the record goes nowhere). -/
theorem dictInsertSub_eq_primoFiglio :
    ∀ (conto : Conto) (cfg : TaxD) (d : VDict),
      dictInsertSub conto cfg d =
        match primoFiglioConPattern conto.codice cfg with
        | some k => appendConto conto k d
        | none => d
  | _, .nil, _ => rfl
  | conto, .cons k tv rest, d => by
    cases tv with
    | node es =>
      simp only [dictInsertSub, primoFiglioConPattern]
      cases cfgPat es with
      | none => exact dictInsertSub_eq_primoFiglio conto rest d
      | some r =>
        by_cases h : reMatch r conto.codice <;>
          simp [h, dictInsertSub_eq_primoFiglio conto rest d]
    | pat r =>
      simpa [dictInsertSub, primoFiglioConPattern] using
        dictInsertSub_eq_primoFiglio conto rest d
    | voci ws =>
      simpa [dictInsertSub, primoFiglioConPattern] using
        dictInsertSub_eq_primoFiglio conto rest d

/-- Counterexample to C5: the record `(9_9_9, "avviamento")` is matched at
the internal node `immobilizzazioni` (through the `immateriali` keyword),
but no child sub-pattern matches its code, so — contrary to the claim that
it "remains at the internal bucket (it is still present in the tree)" —
the classification leaves the tree completely unchanged: the record is in
no bucket at all, while the classifier still reports a match. -/
theorem c5_counterexample :
    classificaConto ⟨"9_9_9".data, "avviamento".data, ⟨10, 0⟩⟩
        (strutturaBase .nil) = (strutturaBase .nil, true) := by rfl

/-- C5 amended: when the chosen taxonomy path resolves to an internal node
rather than a leaf list, the record is placed into the first child entry
that directly carries a declared sub-pattern matching the record's code
from the start; if no sub-pattern matches, the record is not inserted
anywhere (it is silently dropped from the tree, though the classifier
still reports the record as classified).  Concretely: `(1_16_2,
avviamento)` lands in `finanziarie` (the first child whose pattern
matches); `(21_7_9, avviamento)` is dropped even though `1_7_9` occurs
inside its code (matching is anchored at the start); `(3_3_3, avviamento)`
is dropped with the tree unchanged. -/
theorem c5_amended_inserimento_interno :
    (∀ (conto : Conto) (cfg : TaxD) (d : VDict),
      dictInsertSub conto cfg d =
        match primoFiglioConPattern conto.codice cfg with
        | some k => appendConto conto k d
        | none => d) ∧
    (classificaConto ⟨"1_16_2".data, "avviamento".data, ⟨10, 0⟩⟩
        (strutturaBase .nil)).2 = true ∧
    lookupPath ["attivo", "immobilizzazioni", "finanziarie"]
        (.vdict (classificaConto ⟨"1_16_2".data, "avviamento".data, ⟨10, 0⟩⟩
          (strutturaBase .nil)).1) =
      some (.vlist (.cons
        (contoVal ⟨"1_16_2".data, "avviamento".data, ⟨10, 0⟩⟩) .nil)) ∧
    classificaConto ⟨"21_7_9".data, "avviamento".data, ⟨10, 0⟩⟩
        (strutturaBase .nil) = (strutturaBase .nil, true) ∧
    classificaConto ⟨"3_3_3".data, "avviamento".data, ⟨10, 0⟩⟩
        (strutturaBase .nil) = (strutturaBase .nil, true) :=
  ⟨dictInsertSub_eq_primoFiglio, by rfl, by rfl, by rfl, by rfl⟩

/- ====================================================================
   Claim C9 — deduplication.
   ==================================================================== -/

/-- Counterexample to C9's scenario: the two lines `10 Cassa 1,50` and
`10 Cassa 1,50   ` differ only in trailing whitespace and carry identical
code, description, and amount, yet the extractor produces TWO records, not
one: template 1 stitches a spurious code `50\n10` across the line break
(digits of the first line's amount + newline + the second line's code),
and template 3 extracts the genuine record once (its second-line duplicate
is dropped by the deduplication). -/
theorem c9_counterexample :
    estraiConti "10 Cassa 1,50\n10 Cassa 1,50   ".data [] =
      [⟨"50\n10".data, "Cassa".data, ⟨150, 2⟩⟩,
       ⟨"10".data, "Cassa".data, ⟨150, 2⟩⟩] ∧
    (estraiConti "10 Cassa 1,50\n10 Cassa 1,50   ".data []).length ≠ 1 := by
  constructor
  · decide
  · decide

/-- C9 amended: `_conto_duplicato` drops a candidate exactly when an
already-extracted record has an identical normalized code, an identical
description and an amount whose absolute difference from the candidate's
is strictly less than `0.01`; for two lines differing only in trailing
whitespace the second line's identical candidate is deduplicated — e.g.
the pair of lines `A.I.1) Cassa 1,50` yields exactly one record — but a
pair of lines may still yield more than one record when several templates
extract distinct code variants from the same text. -/
theorem c9_amended_deduplicazione :
    (∀ (conto : Conto) (conti : List Conto),
      contoDuplicato conto conti = true ↔
      ∃ c ∈ conti, c.codice = conto.codice ∧
        c.descrizione = conto.descrizione ∧
        |c.valore.toRat - conto.valore.toRat| < 1 / 100) ∧
    estraiConti "A.I.1) Cassa 1,50\nA.I.1) Cassa 1,50   ".data [] =
      [⟨"1".data, "Cassa".data, ⟨150, 2⟩⟩] := by
  constructor
  · intro conto conti
    simp only [contoDuplicato, List.any_eq_true, Bool.and_eq_true,
      decide_eq_true_eq]
    constructor
    · rintro ⟨c, hc, ⟨h1, h2⟩, h3⟩
      refine ⟨c, hc, h1, h2, ?_⟩
      have := (Dec.blt_iff (Dec.abs (Dec.sub c.valore conto.valore)) ⟨1, 2⟩).mp h3
      rw [Dec.toRat_abs, Dec.toRat_sub] at this
      calc |c.valore.toRat - conto.valore.toRat| <
          (⟨1, 2⟩ : Dec).toRat := this
        _ = 1 / 100 := by norm_num [Dec.toRat]
    · rintro ⟨c, hc, h1, h2, h3⟩
      refine ⟨c, hc, ⟨h1, h2⟩, ?_⟩
      rw [Dec.blt_iff, Dec.toRat_abs, Dec.toRat_sub]
      calc |c.valore.toRat - conto.valore.toRat| < 1 / 100 := h3
        _ = (⟨1, 2⟩ : Dec).toRat := by norm_num [Dec.toRat]
  · decide

/-- Witness for the amended C9 characterization at a concrete duplicate
pair. -/
theorem c9_amended_deduplicazione_witness :
    contoDuplicato ⟨"1".data, "Cassa".data, ⟨150, 2⟩⟩
      [⟨"1".data, "Cassa".data, ⟨150, 2⟩⟩] = true :=
  (c9_amended_deduplicazione.1 _ _).mpr
    ⟨⟨"1".data, "Cassa".data, ⟨150, 2⟩⟩, by simp, rfl, rfl, by
      norm_num [Dec.toRat]⟩

/- ====================================================================
   Claim C10 — the synthetic 'calcolato' total.
   ==================================================================== -/

theorem hasKey_updKey : ∀ (d : VDict) (k k' : String) (f : Val → Val),
    (updKey d k f).hasKey k' = d.hasKey k'
  | .nil, _, _, _ => rfl
  | .cons k0 v0 t, k, k', f => by
    by_cases hk : k0 = k <;>
      simp [updKey, VDict.hasKey, hk, hasKey_updKey t k k' f]

theorem kwDest_nonempty (sez cat : String) :
    ∃ p rest, kwDest sez cat = p :: rest := by
  unfold kwDest
  split_ifs <;> exact ⟨_, _, rfl⟩

theorem hasKey_classificaPerKeywords (conto : Conto) (s : VDict)
    (k : String) :
    ((classificaPerKeywords conto s).1).hasKey k = s.hasKey k := by
  cases hf : kwFind (lowerL conto.descrizione) keywordsMap with
  | none => simp only [classificaPerKeywords, hf]
  | some sc =>
    obtain ⟨sez, cat⟩ := sc
    obtain ⟨p, rest, hpr⟩ := kwDest_nonempty sez cat
    simp only [classificaPerKeywords, hf, hpr, appendAtPath, hasKey_updKey]

theorem hasKey_classificaConto (conto : Conto) (s : VDict) (k : String) :
    ((classificaConto conto s).1).hasKey k = s.hasKey k := by
  cases hA : findCategoria conto.codice (lowerL conto.descrizione)
      mappingAttivo with
  | some cc =>
    obtain ⟨cat, cfg⟩ := cc
    simp only [classificaConto, hA, hasKey_updKey]
  | none =>
    cases hP : findCategoria conto.codice (lowerL conto.descrizione)
        mappingPassivo with
    | some cc =>
      obtain ⟨cat, cfg⟩ := cc
      simp only [classificaConto, hA, hP, hasKey_updKey]
    | none =>
      simp only [classificaConto, hA, hP]
      exact hasKey_classificaPerKeywords conto s k

theorem hasKey_foldClassifica (k : String) : ∀ (conti : List Conto) (s : VDict),
    (conti.foldl (fun s c => (classificaConto c s).1) s).hasKey k = s.hasKey k
  | [], _ => rfl
  | c :: rest, s => by
    rw [List.foldl_cons, hasKey_foldClassifica k rest _,
      hasKey_classificaConto]

/-- C10: when the PDF parse found no declared totals and at least one
record survives validation, and the sum of the strictly positive record
amounts is positive, the validation pass stores that sum under the
synthetic key `'calcolato'`, and the organizing pass carries it into the
output both as the top-level `'totali_originali'` entry and as the
`'originali'` entry of the computed `'totali'` dictionary. -/
theorem c10_totale_calcolato_sintetico :
    ∀ r : PdfRisultati, r.totali = [] →
      (validaEPulisciRisultati r).conti ≠ [] →
      Dec.blt Dec.zero (sommaPositivi ((validaEPulisciRisultati r).conti)) =
        true →
      (validaEPulisciRisultati r).totali =
        [("calcolato", sommaPositivi ((validaEPulisciRisultati r).conti))] ∧
      0 < (sommaPositivi ((validaEPulisciRisultati r).conti)).toRat ∧
      lookupVal (organizzaDatiCee ⟨(validaEPulisciRisultati r).info,
          (validaEPulisciRisultati r).conti,
          (validaEPulisciRisultati r).totali⟩) "totali_originali" =
        some (totaliToVal (validaEPulisciRisultati r).totali) ∧
      (∃ t : VDict,
        lookupVal (organizzaDatiCee ⟨(validaEPulisciRisultati r).info,
            (validaEPulisciRisultati r).conti,
            (validaEPulisciRisultati r).totali⟩) "totali" =
          some (.vdict t) ∧
        lookupVal t "originali" =
          some (totaliToVal (validaEPulisciRisultati r).totali)) := by
  intro r h0 h1 h2
  have hconti : (validaEPulisciRisultati r).conti = r.conti.filter contoValido := rfl
  have hcv : (r.conti.filter contoValido).isEmpty = false := by
    rw [hconti] at h1
    simpa [List.isEmpty_iff] using h1
  have htot : (validaEPulisciRisultati r).totali =
      [("calcolato", sommaPositivi ((validaEPulisciRisultati r).conti))] := by
    have h2' : Dec.blt Dec.zero (sommaPositivi (r.conti.filter contoValido)) =
        true := by rw [← hconti]; exact h2
    simp only [validaEPulisciRisultati, h0, List.isEmpty_nil, hcv,
      Bool.not_false, Bool.and_self, if_true]
    simp [h2']
  refine ⟨htot, ?_, ?_⟩
  · have := (Dec.blt_iff Dec.zero _).mp h2
    rwa [Dec.toRat_zero] at this
  · set v := validaEPulisciRisultati r with hv
    have hne : v.totali ≠ [] := by rw [htot]; simp
    have hisEmpty : v.totali.isEmpty = false := by
      simpa [List.isEmpty_iff] using hne
    unfold organizzaDatiCee
    simp only [hisEmpty, Bool.false_eq_true, if_false]
    set s2 := v.conti.foldl (fun s c => (classificaConto c s).1)
      (strutturaBase v.info) with hs2
    have hkey : s2.hasKey "totali_originali" = false := by
      rw [hs2, hasKey_foldClassifica]
      rfl
    have hlook : lookupVal (s2.app
        (.cons "totali_originali" (totaliToVal v.totali) .nil))
        "totali_originali" = some (totaliToVal v.totali) := by
      rw [lookupVal_app, lookupVal_of_hasKey_false _ _ hkey]
      rfl
    constructor
    · simp only [calcolaTotali]
      rw [lookupVal_setKey_ne _ _ _ _ (by decide)]
      exact hlook
    · simp only [calcolaTotali, hlook]
      exact ⟨_, lookupVal_setKey_self _ _ _, by rfl⟩

/-- Witness for C10 at a concrete one-record parse result. -/
theorem c10_totale_calcolato_sintetico_witness :
    (validaEPulisciRisultati
      ⟨.nil, [⟨"1_1_1".data, "cassa contanti".data, ⟨100, 0⟩⟩], [],
        "x".data⟩).totali =
      [("calcolato", sommaPositivi ((validaEPulisciRisultati
        ⟨.nil, [⟨"1_1_1".data, "cassa contanti".data, ⟨100, 0⟩⟩], [],
          "x".data⟩).conti))] :=
  (c10_totale_calcolato_sintetico
    ⟨.nil, [⟨"1_1_1".data, "cassa contanti".data, ⟨100, 0⟩⟩], [], "x".data⟩
    rfl (by decide) (by decide)).1

/- ====================================================================
   The `while '__' in codice` loop computes a run collapse — groundwork
   for claims C3 and C8.
   ==================================================================== -/

theorem hasUU_tail : ∀ {c : Char} {t : List Char},
    hasUU (c :: t) = false → hasUU t = false := by
  intro c t h
  cases t with
  | nil => rfl
  | cons c2 t2 =>
    simp only [hasUU, Bool.or_eq_false_iff] at h
    exact h.2

theorem hasUU_cons_cons {c1 c2 : Char} {t : List Char}
    (h : hasUU (c1 :: c2 :: t) = false) : ¬(c1 = '_' ∧ c2 = '_') := by
  simp only [hasUU, Bool.or_eq_false_iff, Bool.and_eq_false_iff,
    decide_eq_false_iff_not] at h
  rcases h.1 with h1 | h1 <;> intro hc <;> exact h1 (by simp [hc.1, hc.2])

theorem replaceUU_cons_cons_pos {t : List Char} :
    replaceUU ('_' :: '_' :: t) = '_' :: replaceUU t := by
  simp [replaceUU]

theorem replaceUU_cons_cons_neg {c1 c2 : Char} {t : List Char}
    (h : ¬(c1 = '_' ∧ c2 = '_')) :
    replaceUU (c1 :: c2 :: t) = c1 :: replaceUU (c2 :: t) := by
  have hcond : (c1 = '_' && c2 = '_') = false := by
    simp only [Bool.and_eq_false_iff, decide_eq_false_iff_not]
    by_cases h1 : c1 = '_'
    · right; intro h2; exact h (And.intro h1 h2)
    · left; exact h1
  simp [replaceUU, hcond]

theorem collapseRuns_cons_ne {c : Char} {t : List Char} (hc : ¬ c = '_') :
    collapseRuns (c :: t) = c :: collapseRuns t := by
  simp [collapseRuns, collapseRunsU, hc]

theorem collapseRunsU_true_eq : ∀ t : List Char,
    collapseRunsU true t =
      collapseRunsU false (t.dropWhile (fun c => c = '_'))
  | [] => rfl
  | c :: t => by
    by_cases hc : c = '_'
    · subst hc
      have h1 : collapseRunsU true ('_' :: t) = collapseRunsU true t := by
        simp [collapseRunsU]
      have h2 : List.dropWhile (fun c => decide (c = '_')) ('_' :: t) =
          List.dropWhile (fun c => decide (c = '_')) t := by
        simp [List.dropWhile]
      rw [h1, h2]
      exact collapseRunsU_true_eq t
    · simp [collapseRunsU, List.dropWhile, hc]

theorem collapseRuns_cons_u (t : List Char) :
    collapseRuns ('_' :: t) =
      '_' :: collapseRuns (t.dropWhile (fun c => c = '_')) := by
  show collapseRunsU false ('_' :: t) = _
  simp only [collapseRunsU, if_pos rfl]
  rw [collapseRunsU_true_eq t]
  rfl

theorem replaceUU_length_le : ∀ l : List Char,
    (replaceUU l).length ≤ l.length
  | [] => le_refl _
  | [c] => le_refl _
  | c1 :: c2 :: t => by
    by_cases h : c1 = '_' ∧ c2 = '_'
    · obtain ⟨h1, h2⟩ := h
      subst h1; subst h2
      rw [replaceUU_cons_cons_pos]
      have := replaceUU_length_le t
      simp only [List.length_cons]
      omega
    · rw [replaceUU_cons_cons_neg h]
      have := replaceUU_length_le (c2 :: t)
      simp only [List.length_cons] at this ⊢
      omega

theorem replaceUU_length_lt : ∀ l : List Char, hasUU l = true →
    (replaceUU l).length < l.length
  | [], h => by simp [hasUU] at h
  | [c], h => by simp [hasUU] at h
  | c1 :: c2 :: t, h => by
    by_cases hc : c1 = '_' ∧ c2 = '_'
    · obtain ⟨h1, h2⟩ := hc
      subst h1; subst h2
      rw [replaceUU_cons_cons_pos]
      have := replaceUU_length_le t
      simp only [List.length_cons]
      omega
    · rw [replaceUU_cons_cons_neg hc]
      have hrec : hasUU (c2 :: t) = true := by
        simp only [hasUU, Bool.or_eq_true, Bool.and_eq_true,
          decide_eq_true_eq] at h
        rcases h with h | h
        · exact absurd h hc
        · exact h
      have := replaceUU_length_lt (c2 :: t) hrec
      simp only [List.length_cons] at this ⊢
      omega

theorem replaceUU_eq_self : ∀ l : List Char, hasUU l = false →
    replaceUU l = l
  | [], _ => rfl
  | [c], _ => rfl
  | c1 :: c2 :: t, h => by
    rw [replaceUU_cons_cons_neg (hasUU_cons_cons h)]
    rw [replaceUU_eq_self (c2 :: t) (hasUU_tail h)]

theorem collapseRuns_eq_self : ∀ l : List Char, hasUU l = false →
    collapseRuns l = l
  | [], _ => rfl
  | c :: t, h => by
    by_cases hc : c = '_'
    · subst hc
      have hdrop : t.dropWhile (fun c => c = '_') = t := by
        cases t with
        | nil => rfl
        | cons c2 t2 =>
          have hne : ¬ c2 = '_' := fun hc2 =>
            hasUU_cons_cons h ⟨rfl, hc2⟩
          simp [List.dropWhile, hne]
      rw [collapseRuns_cons_u, hdrop,
        collapseRuns_eq_self t (hasUU_tail h)]
    · rw [collapseRuns_cons_ne hc, collapseRuns_eq_self t (hasUU_tail h)]

theorem collapseRuns_replaceUU_aux : ∀ n : Nat, ∀ l : List Char,
    l.length ≤ n →
    (collapseRuns (replaceUU l) = collapseRuns l ∧
     collapseRuns ((replaceUU l).dropWhile (fun c => c = '_')) =
       collapseRuns (l.dropWhile (fun c => c = '_'))) := by
  intro n
  induction n with
  | zero =>
    intro l hl
    have : l = [] := List.eq_nil_of_length_eq_zero (Nat.le_zero.mp hl)
    subst this
    exact ⟨rfl, rfl⟩
  | succ n ih =>
    intro l hl
    constructor
    · rcases l with _ | ⟨c1, _ | ⟨c2, t⟩⟩
      · rfl
      · rfl
      · simp only [List.length_cons] at hl
        by_cases hc : c1 = '_'
        · subst hc
          by_cases hc2 : c2 = '_'
          · subst hc2
            rw [replaceUU_cons_cons_pos, collapseRuns_cons_u,
              collapseRuns_cons_u]
            have hdrop : List.dropWhile (fun c => c = '_') ('_' :: t) =
                List.dropWhile (fun c => c = '_') t := by
              simp [List.dropWhile]
            rw [hdrop]
            exact congrArg (List.cons '_') (ih t (by omega)).2
          · rw [replaceUU_cons_cons_neg (fun hc => hc2 hc.2),
              collapseRuns_cons_u, collapseRuns_cons_u]
            exact congrArg (List.cons '_') (ih (c2 :: t) (by simp; omega)).2
        · rw [replaceUU_cons_cons_neg (fun h => hc h.1),
            collapseRuns_cons_ne hc, collapseRuns_cons_ne hc]
          exact congrArg (List.cons c1) (ih (c2 :: t) (by simp; omega)).1
    · rcases l with _ | ⟨c1, _ | ⟨c2, t⟩⟩
      · rfl
      · by_cases hc : c1 = '_' <;> simp [replaceUU, List.dropWhile, hc]
      · simp only [List.length_cons] at hl
        by_cases hc : c1 = '_'
        · subst hc
          by_cases hc2 : c2 = '_'
          · subst hc2
            rw [replaceUU_cons_cons_pos]
            have hd1 : List.dropWhile (fun c => c = '_') ('_' :: replaceUU t) =
                List.dropWhile (fun c => c = '_') (replaceUU t) := by
              simp [List.dropWhile]
            have hd2 : List.dropWhile (fun c => c = '_') ('_' :: '_' :: t) =
                List.dropWhile (fun c => c = '_') t := by
              simp [List.dropWhile]
            rw [hd1, hd2]
            exact (ih t (by omega)).2
          · rw [replaceUU_cons_cons_neg (fun hc => hc2 hc.2)]
            have hd1 : List.dropWhile (fun c => c = '_')
                  ('_' :: replaceUU (c2 :: t)) =
                List.dropWhile (fun c => c = '_') (replaceUU (c2 :: t)) := by
              simp [List.dropWhile]
            have hd2 : List.dropWhile (fun c => c = '_') ('_' :: c2 :: t) =
                List.dropWhile (fun c => c = '_') (c2 :: t) := by
              simp [List.dropWhile]
            rw [hd1, hd2]
            exact (ih (c2 :: t) (by simp; omega)).2
        · rw [replaceUU_cons_cons_neg (fun h => hc h.1)]
          have hd1 : List.dropWhile (fun c => c = '_')
                (c1 :: replaceUU (c2 :: t)) = c1 :: replaceUU (c2 :: t) := by
            simp [List.dropWhile, hc]
          have hd2 : List.dropWhile (fun c => c = '_') (c1 :: c2 :: t) =
              c1 :: c2 :: t := by
            simp [List.dropWhile, hc]
          rw [hd1, hd2, collapseRuns_cons_ne hc, collapseRuns_cons_ne hc]
          exact congrArg (List.cons c1) (ih (c2 :: t) (by simp; omega)).1

theorem collapseRuns_replaceUU (l : List Char) :
    collapseRuns (replaceUU l) = collapseRuns l :=
  (collapseRuns_replaceUU_aux l.length l le_rfl).1

theorem collapseLoop_eq_collapseRuns : ∀ (n : Nat) (l : List Char),
    l.length ≤ n → collapseLoop n l = collapseRuns l := by
  intro n
  induction n with
  | zero =>
    intro l hl
    have : l = [] := List.eq_nil_of_length_eq_zero (Nat.le_zero.mp hl)
    subst this
    rfl
  | succ n ih =>
    intro l hl
    simp only [collapseLoop]
    by_cases h : hasUU l = true
    · rw [if_pos h]
      have hlt := replaceUU_length_lt l h
      rw [ih (replaceUU l) (by omega), collapseRuns_replaceUU]
    · rw [if_neg (by simpa using h)]
      exact (collapseRuns_eq_self l (by simpa using h)).symm

/-- The normalizer as shipped equals its run-collapse description. -/
theorem formattaCodice_eq_normSpecAmended (l : List Char) :
    formattaCodice l = normSpecAmended l := by
  unfold formattaCodice normSpecAmended
  by_cases hl : l = []
  · simp [hl]
  · simp only [hl, if_false]
    rw [collapseLoop_eq_collapseRuns _ _ le_rfl]

/- ====================================================================
   Claim C8 — what the normalizer keeps, deletes and replaces.
   ==================================================================== -/

/-- Counterexample to C8: the claim says a comma is kept and then replaced
by the canonical separator, so its normalizer sends `"1,2"` to `"1_2"`; the
code deletes the comma outright and yields `"12"`. -/
theorem c8_counterexample :
    formattaCodice "1,2".data ≠ normSpecClaimed "1,2".data ∧
    formattaCodice "1,2".data = "12".data ∧
    normSpecClaimed "1,2".data = "1_2".data := by
  refine ⟨by decide, by decide, by decide⟩

/-- C8 amended: for every input string the normalizer first strips
surrounding whitespace, keeps only digits, hyphen, period, underscore,
slash and whitespace (deleting comma, semicolon, colon, pipe and
backslash outright), replaces hyphen, period, slash and the space
character (but no other whitespace) with a single canonical underscore,
collapses consecutive underscores into one, trims leading and trailing
underscores, and maps empty input to the empty string without raising. -/
theorem c8_amended_normalizzatore :
    (∀ l : List Char, formattaCodice l = normSpecAmended l) ∧
    formattaCodice [] = [] :=
  ⟨formattaCodice_eq_normSpecAmended, rfl⟩

/- ====================================================================
   Character-level facts for the idempotence analysis (claim C3).
   ==================================================================== -/

theorem isPyDigit_not_space (c : Char) (h : isPyDigit c = true) :
    isPySpace c = false := by
  simp only [isPyDigit, Bool.and_eq_true, decide_eq_true_eq] at h
  simp only [isPySpace, Bool.or_eq_false_iff, Bool.and_eq_false_iff,
    decide_eq_false_iff_not]
  omega

theorem digitU_not_space (c : Char)
    (h : (isPyDigit c || c = '_') = true) : isPySpace c = false := by
  simp only [Bool.or_eq_true, decide_eq_true_eq] at h
  rcases h with h | h
  · exact isPyDigit_not_space c h
  · subst h; decide

theorem replaceSeparatori_eq_self_of_digitU (c : Char)
    (h : (isPyDigit c || c = '_') = true) : replaceSeparatori c = c := by
  unfold replaceSeparatori
  rw [if_neg]
  intro hcond
  simp only [Bool.or_eq_true, decide_eq_true_eq] at hcond
  rcases hcond with
    ((((((((hc | hc) | hc) | hc) | hc) | hc) | hc) | hc) | hc) <;>
    subst hc <;> exact absurd h (by decide)

theorem keepCodiceChar_of_digitU (c : Char)
    (h : (isPyDigit c || c = '_') = true) : keepCodiceChar c = true := by
  simp only [Bool.or_eq_true, decide_eq_true_eq] at h
  rcases h with h | h
  · simp [keepCodiceChar, h]
  · simp [keepCodiceChar, h]

/- Preservation of an alphabet predicate by the normalizer's stages. -/

theorem all_collapseRunsU (p : Char → Bool) : ∀ (flag : Bool) (l : List Char),
    l.all p = true → (collapseRunsU flag l).all p = true
  | _, [], _ => rfl
  | flag, c :: t, h => by
    simp only [List.all_cons, Bool.and_eq_true] at h
    by_cases hc : c = '_'
    · subst hc
      cases flag with
      | true =>
        simpa [collapseRunsU] using all_collapseRunsU p true t h.2
      | false =>
        have ht := all_collapseRunsU p true t h.2
        simpa [collapseRunsU, List.all_cons, h.1] using ht
    · cases flag <;>
        simp only [collapseRunsU, hc, if_false, if_neg hc, List.all_cons,
          Bool.and_eq_true] <;>
        exact ⟨h.1, all_collapseRunsU p false t h.2⟩

theorem all_dropWhile (p q : Char → Bool) : ∀ l : List Char,
    l.all p = true → (l.dropWhile q).all p = true
  | [], _ => rfl
  | c :: t, h => by
    simp only [List.all_cons, Bool.and_eq_true] at h
    by_cases hc : q c = true
    · simp only [List.dropWhile, hc]
      exact all_dropWhile p q t h.2
    · simp only [List.dropWhile, Bool.not_eq_true] at hc ⊢
      simp [hc, List.all_cons, h.1, h.2]

theorem all_trimTrailU (p : Char → Bool) : ∀ l : List Char,
    l.all p = true → (trimTrailU l).all p = true
  | [], _ => rfl
  | c :: t, h => by
    simp only [List.all_cons, Bool.and_eq_true] at h
    cases htr : trimTrailU t with
    | nil =>
      by_cases hc : c = '_' <;> simp [trimTrailU, htr, hc, h.1]
    | cons x xs =>
      have hall := all_trimTrailU p t h.2
      rw [htr] at hall
      simp [trimTrailU, htr, h.1, hall]

/- The collapsed string has no double underscore. -/

theorem headIs_collapseRunsU_true : ∀ t : List Char,
    headIs (collapseRunsU true t) '_' = false
  | [] => rfl
  | c :: t => by
    by_cases hc : c = '_'
    · subst hc
      simpa [collapseRunsU] using headIs_collapseRunsU_true t
    · simp [collapseRunsU, hc, headIs]

theorem hasUU_cons_of {x : List Char} (hhead : headIs x '_' = false)
    (h : hasUU x = false) : hasUU ('_' :: x) = false := by
  cases x with
  | nil => rfl
  | cons c t =>
    simp only [headIs, decide_eq_false_iff_not] at hhead
    simp [hasUU, hhead, h]

theorem hasUU_cons_ne {c : Char} (hc : ¬ c = '_') :
    ∀ x : List Char, hasUU (c :: x) = hasUU x
  | [] => rfl
  | y :: ys => by simp [hasUU, hc]

theorem hasUU_collapseRunsU : ∀ (flag : Bool) (l : List Char),
    hasUU (collapseRunsU flag l) = false
  | _, [] => rfl
  | flag, c :: t => by
    by_cases hc : c = '_'
    · subst hc
      cases flag with
      | true => simpa [collapseRunsU] using hasUU_collapseRunsU true t
      | false =>
        simp only [collapseRunsU, if_pos rfl]
        exact hasUU_cons_of (headIs_collapseRunsU_true t)
          (hasUU_collapseRunsU true t)
    · cases flag <;>
        simp only [collapseRunsU, hc, if_false, if_neg hc] <;>
        rw [hasUU_cons_ne hc] <;>
        exact hasUU_collapseRunsU false t

theorem hasUU_dropWhile (q : Char → Bool) : ∀ l : List Char,
    hasUU l = false → hasUU (l.dropWhile q) = false
  | [], _ => rfl
  | c :: t, h => by
    by_cases hc : q c = true
    · simp only [List.dropWhile, hc]
      exact hasUU_dropWhile q t (hasUU_tail h)
    · simp only [List.dropWhile, Bool.not_eq_true] at hc ⊢
      simpa [hc] using h

theorem trimTrailU_head : ∀ (y : Char) (ys : List Char) (x : Char)
    (xs : List Char), trimTrailU (y :: ys) = x :: xs → x = y := by
  intro y ys x xs h
  cases h2 : trimTrailU ys with
  | nil =>
    simp only [trimTrailU, h2] at h
    by_cases hy : y = '_'
    · simp [hy] at h
    · simp [hy] at h
      exact h.1.symm
  | cons a as =>
    simp only [trimTrailU, h2] at h
    exact (List.cons.injEq _ _ _ _ ▸ h).1.symm

theorem hasUU_trimTrailU : ∀ l : List Char,
    hasUU l = false → hasUU (trimTrailU l) = false
  | [], _ => rfl
  | c :: t, h => by
    cases htr : trimTrailU t with
    | nil =>
      by_cases hc : c = '_' <;> simp [trimTrailU, htr, hc, hasUU]
    | cons x xs =>
      simp only [trimTrailU, htr]
      have hxt : hasUU (x :: xs) = false := by
        have := hasUU_trimTrailU t (hasUU_tail h)
        rwa [htr] at this
      cases t with
      | nil => simp [trimTrailU] at htr
      | cons y ys =>
        have hxy : x = y := trimTrailU_head y ys x xs htr
        subst hxy
        by_cases hc : c = '_'
        · subst hc
          have hyne : ¬ x = '_' := by
            intro hy
            have := hasUU_cons_cons h ⟨rfl, hy⟩
            exact this
          simp [hasUU, hyne, hxt]
        · rw [hasUU_cons_ne hc]
          exact hxt

/- Edge-underscore facts. -/

theorem headIs_dropLeadU : ∀ l : List Char,
    headIs (dropLeadU l) '_' = false
  | [] => rfl
  | c :: t => by
    by_cases hc : c = '_'
    · subst hc
      have hstep : dropLeadU ('_' :: t) = dropLeadU t := by
        simp [dropLeadU, List.dropWhile]
      rw [hstep]
      exact headIs_dropLeadU t
    · simp [dropLeadU, List.dropWhile, hc, headIs]

theorem headIs_trimTrailU (ch : Char) : ∀ l : List Char,
    headIs l ch = false → headIs (trimTrailU l) ch = false
  | [], _ => rfl
  | c :: t, h => by
    simp only [headIs, decide_eq_false_iff_not] at h
    cases htr : trimTrailU t with
    | nil => by_cases hc : c = '_' <;> simp [trimTrailU, htr, hc, headIs, h]
    | cons x xs => simp [trimTrailU, htr, headIs, h]

theorem headIs_append {l l2 : List Char} {ch : Char} (h : l ≠ []) :
    headIs (l ++ l2) ch = headIs l ch := by
  cases l with
  | nil => exact absurd rfl h
  | cons c t => simp [headIs]

theorem lastIs_cons (c x : Char) (xs : List Char) (ch : Char) :
    lastIs (c :: x :: xs) ch = lastIs (x :: xs) ch := by
  unfold lastIs
  rw [List.reverse_cons]
  exact headIs_append (by simp)

theorem lastIs_trimTrailU : ∀ l : List Char,
    lastIs (trimTrailU l) '_' = false
  | [] => rfl
  | c :: t => by
    cases htr : trimTrailU t with
    | nil =>
      by_cases hc : c = '_' <;>
        simp [trimTrailU, htr, hc, lastIs, headIs]
    | cons x xs =>
      simp only [trimTrailU, htr]
      rw [lastIs_cons]
      have := lastIs_trimTrailU t
      rwa [htr] at this

theorem dropLeadU_eq_self {l : List Char} (h : headIs l '_' = false) :
    dropLeadU l = l := by
  cases l with
  | nil => rfl
  | cons c t =>
    simp only [headIs, decide_eq_false_iff_not] at h
    simp [dropLeadU, List.dropWhile, h]

theorem trimTrailU_eq_self : ∀ l : List Char,
    lastIs l '_' = false → trimTrailU l = l
  | [], _ => rfl
  | c :: t, h => by
    cases t with
    | nil =>
      simp only [lastIs, List.reverse_cons, List.reverse_nil,
        List.nil_append, headIs, decide_eq_false_iff_not] at h
      simp [trimTrailU, h]
    | cons x xs =>
      rw [lastIs_cons] at h
      have htt := trimTrailU_eq_self (x :: xs) h
      have hd : trimTrailU (c :: x :: xs) =
          (match trimTrailU (x :: xs) with
           | [] => if c = '_' then [] else [c]
           | r => c :: r) := rfl
      rw [hd, htt]

/- Identity of the second normalizer pass on an already-normal string. -/

theorem dropWhile_eq_self_of_not {q : Char → Bool} : ∀ {l : List Char},
    (∀ c ∈ l, q c = false) → l.dropWhile q = l := by
  intro l h
  cases l with
  | nil => rfl
  | cons c t => simp [List.dropWhile, h c (by simp)]

theorem pyStrip_eq_self {l : List Char}
    (h : ∀ c ∈ l, isPySpace c = false) : pyStrip l = l := by
  unfold pyStrip
  rw [dropWhile_eq_self_of_not h]
  rw [dropWhile_eq_self_of_not (fun c hc => h c (List.mem_reverse.mp hc))]
  exact List.reverse_reverse l

theorem map_eq_self_of_fix {f : Char → Char} : ∀ {l : List Char},
    (∀ c ∈ l, f c = c) → l.map f = l := by
  intro l h
  induction l with
  | nil => rfl
  | cons c t ih =>
    simp only [List.map_cons, h c (by simp)]
    rw [ih (fun c hc => h c (by simp [hc]))]

/-- Membership transport through `pyStrip`. -/
theorem mem_of_mem_pyStrip {c : Char} {l : List Char}
    (h : c ∈ pyStrip l) : c ∈ l := by
  unfold pyStrip at h
  rw [List.mem_reverse] at h
  have h2 := (List.dropWhile_sublist (l := (l.dropWhile isPySpace).reverse)
    (p := isPySpace)).subset h
  rw [List.mem_reverse] at h2
  exact (List.dropWhile_sublist (l := l) (p := isPySpace)).subset h2

/-- The alphabet of a normalized code: digits and underscores only
(for inputs whose whitespace is all plain spaces). -/
theorem normSpecAmended_alphabet {l : List Char}
    (hws : ∀ c ∈ l, isPySpace c = true → c = ' ') (hl : l ≠ []) :
    (normSpecAmended l).all (fun c => isPyDigit c || c = '_') = true := by
  unfold normSpecAmended
  rw [if_neg hl]
  apply all_trimTrailU
  apply all_dropWhile
  apply all_collapseRunsU
  rw [List.all_eq_true]
  intro c hc
  rw [List.mem_map] at hc
  obtain ⟨c0, hc0, rfl⟩ := hc
  rw [List.mem_filter] at hc0
  obtain ⟨hmem, hkeep⟩ := hc0
  have hmem0 : c0 ∈ l := mem_of_mem_pyStrip hmem
  simp only [keepCodiceChar, Bool.or_eq_true, decide_eq_true_eq] at hkeep
  rcases hkeep with ((((h | h) | h) | h) | h) | h
  · rw [replaceSeparatori_eq_self_of_digitU c0 (by simp [h])]
    simp [h]
  · subst h; decide
  · subst h; decide
  · subst h; decide
  · subst h; decide
  · have := hws c0 hmem0 h
    subst this; decide

/- ====================================================================
   Claim C3 — idempotence of the code normalizer.
   ==================================================================== -/

/-- Counterexample to C3: the normalizer is not idempotent.  On
`"1\t-"` the tab survives the keep-filter (it is whitespace) but is not a
replaced separator, and after the trailing `'-'` is turned into `'_'` and
trimmed the result `"1\t"` ends in a tab; the second application strips
that tab, giving `"1"` ≠ `"1\t"`. -/
theorem c3_counterexample :
    formattaCodice (formattaCodice "1\t-".data) ≠
      formattaCodice "1\t-".data := by decide

/-- C3 amended: the code normalizer is idempotent on every string whose
whitespace characters are all plain spaces (the failure above needs a
non-space whitespace character such as a tab, which the keep-filter
retains but the separator replacement does not touch). -/
theorem c3_amended_idempotenza :
    ∀ l : List Char, (∀ c ∈ l, isPySpace c = true → c = ' ') →
      formattaCodice (formattaCodice l) = formattaCodice l := by
  intro l hws
  simp only [formattaCodice_eq_normSpecAmended]
  by_cases hl : l = []
  · subst hl; rfl
  have hall := normSpecAmended_alphabet hws hl
  set y := normSpecAmended l with hy
  have hyform : y = trimTrailU (dropLeadU (collapseRuns
      (((pyStrip l).filter keepCodiceChar).map replaceSeparatori))) := by
    rw [hy]
    unfold normSpecAmended stripU
    rw [if_neg hl]
  have hnoUU : hasUU y = false := by
    rw [hyform]
    exact hasUU_trimTrailU _ (hasUU_dropWhile _ _ (hasUU_collapseRunsU false _))
  have hhead : headIs y '_' = false := by
    rw [hyform]
    exact headIs_trimTrailU _ _ (headIs_dropLeadU _)
  have hlast : lastIs y '_' = false := by
    rw [hyform]
    exact lastIs_trimTrailU _
  by_cases hy0 : y = []
  · rw [hy0]
    rfl
  have hnospace : ∀ c ∈ y, isPySpace c = false := by
    intro c hc
    have := (List.all_eq_true.mp hall) c hc
    exact digitU_not_space c this
  have h1 : pyStrip y = y := pyStrip_eq_self hnospace
  have h2 : y.filter keepCodiceChar = y := by
    rw [List.filter_eq_self]
    intro c hc
    exact keepCodiceChar_of_digitU c ((List.all_eq_true.mp hall) c hc)
  have h3 : y.map replaceSeparatori = y :=
    map_eq_self_of_fix (fun c hc =>
      replaceSeparatori_eq_self_of_digitU c ((List.all_eq_true.mp hall) c hc))
  have h4 : collapseRuns y = y := collapseRuns_eq_self y hnoUU
  have h5 : stripU y = y := by
    unfold stripU
    rw [dropLeadU_eq_self hhead]
    exact trimTrailU_eq_self y hlast
  show normSpecAmended y = y
  unfold normSpecAmended
  rw [if_neg hy0, h1, h2, h3, h4, h5]

/-- Witness for the amended C3 at a concrete space-only input. -/
theorem c3_amended_idempotenza_witness :
    formattaCodice (formattaCodice "1 2-3".data) =
      formattaCodice "1 2-3".data :=
  c3_amended_idempotenza "1 2-3".data (by decide)

end Ricl
